import Mathlib

/-!
Verification development for the brightway2-io core: the generic linking
strategies (`bw2io/strategies/generic.py`) and the ecospold2 uncertainty
extraction (`bw2io/extractors/ecospold2.py`).

Python dictionaries are embedded as association lists from strings to a
small value type `Val`; Python floats are embedded as rationals (their
ordering and arithmetic agree on all inputs relevant here; NaN payloads are
out of scope); a raised Python exception is embedded as `Option`/an error
component of the result.
-/

set_option maxHeartbeats 1000000

/-- Values stored in an embedded Python dictionary: strings, numbers
(floats and ints, embedded as rationals), booleans, tuples of two values
(used for the `(database, code)` pairs written into `input`), and
string-to-int mappings (used for pedigree matrices). -/
inductive Val where
  | str (s : String)
  | num (q : ℚ)
  | bool (b : Bool)
  | pair (a b : Val)
  | dict (entries : List (String × Int))
deriving DecidableEq, Repr

/-- Python truthiness of a `Val`: empty strings and zero are falsy, a
two-element tuple is always truthy, a mapping is truthy iff nonempty. -/
def Val.truthy : Val → Bool
  | .str s => s ≠ ""
  | .num q => q ≠ 0
  | .bool b => b
  | .pair _ _ => true
  | .dict l => !l.isEmpty

/-- An embedded Python dictionary: an association list with (by
construction) unique string keys. -/
abbrev Obj := List (String × Val)

/-- First-match lookup in an association list (`d[k]` / `d.get(k)`). -/
def alistGet {α : Type} : List (String × α) → String → Option α
  | [], _ => none
  | (k, v) :: t, key => if k = key then some v else alistGet t key

/-- Update in an association list (`d[k] = v`): replace the first entry for
the key in place, or append a fresh entry. -/
def alistSet {α : Type} : List (String × α) → String → α → List (String × α)
  | [], key, v => [(key, v)]
  | (k, w) :: t, key, v =>
      if k = key then (key, v) :: t else (k, w) :: alistSet t key v

/-- Key removal in an association list (`del d[k]`; also a no-op when the
key is absent, which is how it is used after a membership test). -/
def alistDel {α : Type} (l : List (String × α)) (key : String) :
    List (String × α) :=
  l.filter (fun p => p.1 ≠ key)

/-- Lookup on an embedded dictionary. -/
def Obj.get (o : Obj) (key : String) : Option Val := alistGet o key

/-- Assignment on an embedded dictionary. -/
def Obj.set (o : Obj) (key : String) (v : Val) : Obj := alistSet o key v

/-- Deletion on an embedded dictionary. -/
def Obj.del (o : Obj) (key : String) : Obj := alistDel o key

/-- Truthiness of `o.get(key)` (a missing key is `None`, hence falsy). -/
def Obj.truthyGet (o : Obj) (key : String) : Bool :=
  match o.get key with
  | some v => v.truthy
  | none => false

/-! ### Uncertainty-distribution ids

Numeric distribution ids of the `stats_arrays` library (an external
dependency of the source): only their values as distinct constants matter
here. -/

def UndefinedUncertainty_id : ℚ := 0
def LognormalUncertainty_id : ℚ := 2
def NormalUncertainty_id : ℚ := 3
def UniformUncertainty_id : ℚ := 4
def TriangularUncertainty_id : ℚ := 5

/-! ### Input shape for `extract_uncertainty_dict`

The function walks an lxml element: `obj.get('amount')`, an optional
`uncertainty` child with an optional `pedigreeMatrix` child and exactly one
distribution child (`lognormal` / `normal` / `triangular` / `uniform` /
`undefined`; any other shape raises `ValueError` and is not representable
in this sum type). Attribute reads that are fed to `float(...)` are
embedded as rationals; an optional attribute whose truthiness is tested
(`variance`, `formula`) is embedded as `Option` with `some` meaning
present-and-truthy. -/

/-- Pedigree matrix attributes, keyed by the source-format names. -/
structure PedigreeMatrix where
  reliability : Int
  completeness : Int
  temporalCorrelation : Int
  geographicalCorrelation : Int
  furtherTechnologyCorrelation : Int
deriving DecidableEq, Repr

/-- Canonical renaming of the pedigree attributes (`PM_MAPPING`), in the
mapping's iteration order. -/
def pedigreeVal (p : PedigreeMatrix) : Val :=
  .dict [("reliability", p.reliability),
         ("completeness", p.completeness),
         ("temporal correlation", p.temporalCorrelation),
         ("geographical correlation", p.geographicalCorrelation),
         ("further technological correlation", p.furtherTechnologyCorrelation)]

/-- Attributes of a `lognormal` element used by the extractor. -/
structure LognormalBlock where
  mu : ℚ
  varianceWithPedigreeUncertainty : ℚ
  variance : Option ℚ
deriving DecidableEq, Repr

/-- Attributes of a `normal` element used by the extractor. -/
structure NormalBlock where
  meanValue : ℚ
  varianceWithPedigreeUncertainty : ℚ
  variance : Option ℚ
deriving DecidableEq, Repr

/-- Attributes of a `triangular` element used by the extractor. -/
structure TriangularBlock where
  minValue : ℚ
  mostLikelyValue : ℚ
  maxValue : ℚ
deriving DecidableEq, Repr

/-- Attributes of a `uniform` element used by the extractor. -/
structure UniformBlock where
  minValue : ℚ
  maxValue : ℚ
deriving DecidableEq, Repr

/-- The distribution child of an `uncertainty` element, dispatched by
`hasattr` in source order. -/
inductive UncKind where
  | lognormal (b : LognormalBlock)
  | normal (b : NormalBlock)
  | triangular (b : TriangularBlock)
  | uniform (b : UniformBlock)
  | undefined
deriving DecidableEq, Repr

/-- An `uncertainty` element: optional pedigree matrix plus one
distribution child. -/
structure Uncertainty where
  pedigree : Option PedigreeMatrix
  kind : UncKind
deriving DecidableEq, Repr

/-- The slice of an exchange/parameter element read by
`extract_uncertainty_dict`. -/
structure UncInput where
  amount : ℚ
  formula : Option String
  uncertainty : Option Uncertainty
deriving DecidableEq, Repr

/-- Demotion note appended by `abort_exchange`. -/
def invalidNote : String := "; Invalid parameters - set to undefined uncertainty."

/-- Embedding of `Ecospold2DataExtractor.abort_exchange`: set the
uncertainty type to undefined, reset `loc` to the point amount, delete the
distribution-shape keys, and append the demotion note to the comment.
`none` embeds a raised Python exception: a `KeyError` when `amount` is
absent, or a `TypeError` when a present comment is not a string (neither
occurs on the dictionaries built by `extract_uncertainty_dict`). -/
def abort_exchange (exc : Obj) : Option Obj :=
  let e1 := exc.set "uncertainty type" (.num UndefinedUncertainty_id)
  match e1.get "amount" with
  | none => none
  | some a =>
    let e2 := e1.set "loc" a
    let e3 := (((e2.del "scale").del "shape").del "minimum").del "maximum"
    match e3.get "comment" with
    | none => some (e3.set "comment" (.str ("" ++ invalidNote)))
    | some (.str c) => some (e3.set "comment" (.str (c ++ invalidNote)))
    | some _ => none

/-- Opening lines of `extract_uncertainty_dict`: the dictionary holding
the point amount, the optional (truthy) formula, and — inside the
uncertainty branch — the optional pedigree matrix. -/
def uncBase (amount : ℚ) (formula : Option String)
    (pedigree : Option PedigreeMatrix) : Obj :=
  let data : Obj := [("amount", .num amount)]
  let data := match formula with
    | some f => data.set "formula" (.str f)
    | none => data
  match pedigree with
  | some p => data.set "pedigree" (pedigreeVal p)
  | none => data

/-- Embedding of `Ecospold2DataExtractor.extract_uncertainty_dict`.
Returns the uncertainty dictionary; `none` embeds an uncaught Python
exception escaping from `abort_exchange` (provably unreachable: the
dictionary always carries `amount` and never a `comment`). -/
def extract_uncertainty_dict (i : UncInput) : Option Obj :=
  match i.uncertainty with
  | none =>
      some (((uncBase i.amount i.formula none).set "uncertainty type"
        (.num UndefinedUncertainty_id)).set "loc" (.num i.amount))
  | some unc =>
    let data := uncBase i.amount i.formula unc.pedigree
    match unc.kind with
    | .lognormal b =>
        let data := ((data.set "uncertainty type"
          (.num LognormalUncertainty_id)).set "loc" (.num b.mu)).set
          "scale" (.num b.varianceWithPedigreeUncertainty)
        let data := match b.variance with
          | some v => data.set "scale without pedigree" (.num v)
          | none => data
        if b.varianceWithPedigreeUncertainty ≤ 0 ∨
            25 < b.varianceWithPedigreeUncertainty then
          abort_exchange data
        else
          some data
    | .normal b =>
        let data := ((data.set "uncertainty type"
          (.num NormalUncertainty_id)).set "loc" (.num b.meanValue)).set
          "scale" (.num b.varianceWithPedigreeUncertainty)
        let data := match b.variance with
          | some v => data.set "scale without pedigree" (.num v)
          | none => data
        if b.varianceWithPedigreeUncertainty ≤ 0 then
          abort_exchange data
        else
          some data
    | .triangular b =>
        let data := ((data.set "uncertainty type"
          (.num TriangularUncertainty_id)).set "minimum"
          (.num b.minValue)).set "loc" (.num b.mostLikelyValue) |>.set
          "maximum" (.num b.maxValue)
        if b.maxValue ≤ b.minValue then
          abort_exchange data
        else
          some data
    | .uniform b =>
        let data := ((data.set "uncertainty type"
          (.num UniformUncertainty_id)).set "loc" (.num i.amount)).set
          "minimum" (.num b.minValue) |>.set "maximum" (.num b.maxValue)
        if b.maxValue ≤ b.minValue then
          abort_exchange data
        else
          some data
    | .undefined =>
        some ((data.set "uncertainty type"
          (.num UndefinedUncertainty_id)).set "loc" (.num i.amount))

example :
    extract_uncertainty_dict
      ⟨4, none, some ⟨none, .lognormal ⟨1, 30, none⟩⟩⟩ =
    some [("amount", .num 4), ("uncertainty type", .num 0), ("loc", .num 4),
          ("comment", .str invalidNote)] := by decide

example :
    extract_uncertainty_dict
      ⟨4, none, some ⟨none, .lognormal ⟨1, 10, some 9⟩⟩⟩ =
    some [("amount", .num 4), ("uncertainty type", .num 2), ("loc", .num 1),
          ("scale", .num 10), ("scale without pedigree", .num 9)] := by decide

/-! ### The linking engine (`bw2io/strategies/generic.py`)

`link_iterable_by_fields` receives dataset dictionaries whose `exchanges`
key holds the exchange dictionaries; a dataset is embedded as its scalar
attributes plus that exchange list. The fingerprint function
`activity_hash` lives in `bw2io/utils.py`, outside the analysed sources,
so the engine is parameterized by an arbitrary fingerprint function `h`
standing for it. -/

/-- A dataset dictionary: its attributes and the list under its
`exchanges` key (absent key embedded as the empty list, matching
`container.get("exchanges", [])`). -/
structure DS where
  attrs : Obj
  exchanges : List Obj
deriving DecidableEq, Repr

/-- Membership test `x.get("type") in kind`: a missing `type` is `None`
and a non-string value never equals a string, so neither is a member of a
collection of strings. -/
def typeIn (x : Obj) (ks : List String) : Bool :=
  match x.get "type" with
  | some (.str s) => s ∈ ks
  | _ => decide False

/-- Embedding of the `filter_func` selection of `link_iterable_by_fields`:
`kind` is `none` for `None` (with `some ks` covering both a single string,
wrapped as a singleton, and a collection); an empty collection is falsy in
Python's `if kind:` and selects the no-kind branch. -/
def filter_func (kind : Option (List String)) (relink : Bool) (x : Obj) :
    Bool :=
  match kind with
  | some ks =>
      if ks.isEmpty then relink || !x.truthyGet "input"
      else if relink then typeIn x ks
      else typeIn x ks && !x.truthyGet "input"
  | none => relink || !x.truthyGet "input"

/-- Errors raised by `link_iterable_by_fields` (both surface as
`StrategyError` in the source): a candidate lacking `database`/`code`, or
an exchange whose fingerprint has colliding candidates (carrying the
offending exchange and the duplicates-registry entry handed to
`format_nonunique_key_error`). -/
inductive LinkError where
  | missingIdentity
  | nonunique (obj : Obj) (others : List Obj)
deriving DecidableEq, Repr

/-- Append a dataset to the duplicates registry at `key`
(`duplicates.setdefault(key, []).append(ds)`). -/
def dupAdd (dups : List (String × List Obj)) (key : String) (ds : Obj) :
    List (String × List Obj) :=
  match dups with
  | [] => [(key, [ds])]
  | (k, l) :: t =>
      if k = key then (k, l ++ [ds]) :: t else (k, l) :: dupAdd t key ds

/-- Embedding of the candidate-index build loop of
`link_iterable_by_fields`: first-seen candidates enter the index, later
candidates with an already-indexed fingerprint enter the duplicates
registry, and `.error ()` embeds the `KeyError` → `StrategyError` raised
when a first-seen candidate lacks `database` or `code`. -/
def buildIndex (h : Obj → List String → String) (fields : List String) :
    List Obj → List (String × (Val × Val)) → List (String × List Obj) →
    Except Unit (List (String × (Val × Val)) × List (String × List Obj))
  | [], cands, dups => .ok (cands, dups)
  | ds :: rest, cands, dups =>
    let key := h ds fields
    if (alistGet cands key).isSome then
      buildIndex h fields rest cands (dupAdd dups key ds)
    else
      match ds.get "database", ds.get "code" with
      | some db, some cd =>
          buildIndex h fields rest (alistSet cands key (db, cd)) dups
      | _, _ => .error ()

/-- Embedding of the inner linking loop over one dataset's exchange list:
exchanges passing the filter are processed in order; one whose fingerprint
is in the duplicates registry raises (second component) with everything
from it onward left unmutated; one whose fingerprint is in the candidate
index gets `input` set; the returned list reflects the in-place mutations
done before any raise. -/
def processExchanges (h : Obj → List String → String) (fields : List String)
    (cands : List (String × (Val × Val))) (dups : List (String × List Obj))
    (filt : Obj → Bool) : List Obj → List Obj × Option LinkError
  | [] => ([], none)
  | e :: rest =>
    if filt e then
      let key := h e fields
      match alistGet dups key with
      | some others => (e :: rest, some (.nonunique e others))
      | none =>
        let e1 := match alistGet cands key with
          | some p => e.set "input" (.pair p.1 p.2)
          | none => e
        let r := processExchanges h fields cands dups filt rest
        (e1 :: r.1, r.2)
    else
      let r := processExchanges h fields cands dups filt rest
      (e :: r.1, r.2)

/-- Embedding of the outer linking loop over the unlinked datasets,
stopping at the first raise and keeping the in-place mutations made up to
that point. -/
def processDatasets (h : Obj → List String → String) (fields : List String)
    (cands : List (String × (Val × Val))) (dups : List (String × List Obj))
    (filt : Obj → Bool) : List DS → List DS × Option LinkError
  | [] => ([], none)
  | d :: rest =>
    let r := processExchanges h fields cands dups filt d.exchanges
    match r.2 with
    | some err => (⟨d.attrs, r.1⟩ :: rest, some err)
    | none =>
      let r2 := processDatasets h fields cands dups filt rest
      (⟨d.attrs, r.1⟩ :: r2.1, r2.2)

/-- Embedding of `link_iterable_by_fields`, parameterized by the
fingerprint function `h` (standing for `activity_hash`, which lives
outside the analysed sources). The result pairs the dataset list as left
by the call (faithful to in-place mutation, also on a raise) with the
raised error, if any. In internal mode the dataset dictionaries themselves
form the candidate pool. -/
def link_iterable_by_fields (h : Obj → List String → String)
    (unlinked : List DS) (other : List Obj) (fields : List String)
    (kind : Option (List String)) (internal relink : Bool) :
    List DS × Option LinkError :=
  let filt := filter_func kind relink
  let pool := if internal then unlinked.map DS.attrs else other
  match buildIndex h fields pool [] [] with
  | .error _ => (unlinked, some .missingIdentity)
  | .ok cd => processDatasets h fields cd.1 cd.2 filt unlinked

/-- Modelled from the spec: the standard default field list of the
fingerprint generator (`DEFAULT_FIELDS` in `bw2io/utils.py`, which is not
among the analysed sources). -/
def DEFAULT_FIELDS : List String :=
  ["name", "categories", "unit", "reference product", "location"]

/-- Projection applied by `format_nonunique_key_error` to the problematic
dataset and to each possible target: keep the linking fields plus
`filename`, with a missing field shown as the `"(missing)"` marker. -/
def errProjection (fieldsToPrint : List String) (x : Obj) :
    List (String × Val) :=
  fieldsToPrint.map (fun f => (f, (x.get f).getD (.str "(missing)")))

/-- Structured content of the message built by
`format_nonunique_key_error`: the projected problematic dataset and the
projected possible targets (the source renders both with
`pprint.pformat`; the rendering is kept structured here). -/
structure NonuniqueMsg where
  ds : List (String × Val)
  targets : List (List (String × Val))
deriving DecidableEq, Repr

/-- Embedding of `format_nonunique_key_error`: project the problematic
object and the colliding targets onto `list(fields or DEFAULT_FIELDS) +
["filename"]`. -/
def format_nonunique_key_error (obj : Obj) (fields : List String)
    (others : List Obj) : NonuniqueMsg :=
  let fieldsToPrint :=
    (if fields.isEmpty then DEFAULT_FIELDS else fields) ++ ["filename"]
  ⟨errProjection fieldsToPrint obj, others.map (errProjection fieldsToPrint)⟩

/-- Modelled from the spec: the fingerprint generator (`activity_hash` in
`bw2io/utils.py`, not among the analysed sources): a case-folded,
whitespace-normalized string representation of each chosen field's value,
missing fields encoded as the empty marker, joined in field order, with
the default field list when none is given. (The library afterwards hashes
the joined string; only fingerprint equality matters here.) The linking
theorems are stated for an arbitrary fingerprint function; this definition
instantiates their witnesses. -/
def stringifyVal : Val → String
  | .str s => s
  | .num q => toString q
  | .bool b => if b then "True" else "False"
  | .pair a b => "(" ++ stringifyVal a ++ ", " ++ stringifyVal b ++ ")"
  | .dict l => toString l

/-- ASCII case-folding of one character. -/
def lowerChar (c : Char) : Char :=
  if 65 ≤ c.toNat ∧ c.toNat ≤ 90 then Char.ofNat (c.toNat + 32) else c

/-- Strip leading and trailing spaces. -/
def trimChars (l : List Char) : List Char :=
  ((l.dropWhile (fun c => c = ' ')).reverse.dropWhile
    (fun c => c = ' ')).reverse

/-- Case-folded, whitespace-trimmed normalization of one field value. -/
def strNormalize (s : String) : String :=
  ⟨trimChars (s.data.map lowerChar)⟩

/-- Fingerprint generator over an embedded record; see `stringifyVal`. -/
def activity_hash (ds : Obj) (fields : List String) : String :=
  let fs := if fields.isEmpty then DEFAULT_FIELDS else fields
  String.join
    (fs.map (fun f => strNormalize (((ds.get f).map stringifyVal).getD "")))

/-! ### `assign_only_product_as_production` -/

/-- Python `a or b`: the first operand when truthy, otherwise the
second. -/
def orElseVal (a : Option Val) (b : Val) : Val :=
  match a with
  | some v => if v.truthy then v else b
  | none => b

/-- Embedding of the loop body of `assign_only_product_as_production` on
one dataset: skip datasets with a truthy `reference product`; with exactly
one production-type exchange, derive `reference product`,
`production amount`, `name` and `unit` from it. `none` embeds a raised
exception (`KeyError` on a production exchange missing `name` or `amount`,
`AssertionError` on a falsy name); the mutations a raise would leave
behind mid-assignment are not modelled, and no claim concerns them. -/
def assignDS (ds : DS) : Option DS :=
  if ds.attrs.truthyGet "reference product" then some ds
  else
    match ds.exchanges.filter
        (fun x => x.get "type" == some (.str "production")) with
    | [product] =>
      match product.get "name" with
      | none => none
      | some nm =>
        if !nm.truthy then none
        else
          match product.get "amount" with
          | none => none
          | some amt =>
            let a1 := ds.attrs.set "reference product"
              (orElseVal (product.get "reference product") nm)
            let a2 := a1.set "production amount" amt
            let a3 := a2.set "name" (orElseVal (a2.get "name") nm)
            let a4 := a3.set "unit"
              (orElseVal (a3.get "unit")
                (orElseVal (product.get "unit") (.str "Unknown")))
            some ⟨a4, ds.exchanges⟩
    | _ => some ds

/-- Embedding of `assign_only_product_as_production` over the dataset
list; `none` embeds a raised exception. -/
def assign_only_product_as_production : List DS → Option (List DS)
  | [] => some []
  | d :: rest =>
    match assignDS d with
    | none => none
    | some d1 =>
      match assign_only_product_as_production rest with
      | none => none
      | some rest1 => some (d1 :: rest1)

/-! ### Dictionary lemmas -/

theorem alistGet_set_self {α : Type} (l : List (String × α)) (k : String)
    (v : α) : alistGet (alistSet l k v) k = some v := by
  induction l with
  | nil => simp [alistGet, alistSet]
  | cons p t ih =>
    obtain ⟨k1, v1⟩ := p
    by_cases hk : k1 = k <;> simp [alistGet, alistSet, hk, ih]

theorem alistGet_set_ne {α : Type} (l : List (String × α)) (k k1 : String)
    (v : α) (hne : k1 ≠ k) :
    alistGet (alistSet l k v) k1 = alistGet l k1 := by
  induction l with
  | nil => simp [alistGet, alistSet, Ne.symm hne]
  | cons p t ih =>
    obtain ⟨k2, v2⟩ := p
    by_cases hk : k2 = k
    · subst hk
      simp [alistGet, alistSet, Ne.symm hne]
    · simp [alistGet, alistSet, hk, ih]

theorem alistDel_cons {α : Type} (k2 k : String) (v2 : α)
    (t : List (String × α)) :
    alistDel ((k2, v2) :: t) k =
    if k2 = k then alistDel t k else (k2, v2) :: alistDel t k := by
  by_cases hk : k2 = k <;> simp [alistDel, List.filter_cons, hk]

theorem alistGet_del_self {α : Type} (l : List (String × α)) (k : String) :
    alistGet (alistDel l k) k = none := by
  induction l with
  | nil => rfl
  | cons p t ih =>
    obtain ⟨k1, v1⟩ := p
    by_cases hk : k1 = k
    · simpa [alistDel_cons, hk] using ih
    · simpa [alistDel_cons, hk, alistGet] using ih

theorem alistGet_del_ne {α : Type} (l : List (String × α)) (k k1 : String)
    (hne : k1 ≠ k) : alistGet (alistDel l k) k1 = alistGet l k1 := by
  induction l with
  | nil => rfl
  | cons p t ih =>
    obtain ⟨k2, v2⟩ := p
    by_cases hk : k2 = k
    · subst hk
      simpa [alistDel_cons, alistGet, Ne.symm hne] using ih
    · simp [alistDel_cons, alistGet, hk, ih]

theorem Obj.get_set_self (o : Obj) (k : String) (v : Val) :
    (o.set k v).get k = some v := alistGet_set_self o k v

theorem Obj.get_set_ne (o : Obj) (k k1 : String) (v : Val) (hne : k1 ≠ k) :
    (o.set k v).get k1 = o.get k1 := alistGet_set_ne o k k1 v hne

theorem Obj.get_del_self (o : Obj) (k : String) :
    (o.del k).get k = none := alistGet_del_self o k

theorem Obj.get_del_ne (o : Obj) (k k1 : String) (hne : k1 ≠ k) :
    (o.del k).get k1 = o.get k1 := alistGet_del_ne o k k1 hne

/-- Lookup on the result of an extraction that may have raised. -/
def resGet (r : Option Obj) (k : String) : Option Val :=
  r.bind (fun d => d.get k)
/-! ### Infrastructure for the uncertainty claims -/

theorem uncBase_get_amount (a : ℚ) (fo : Option String)
    (ped : Option PedigreeMatrix) :
    alistGet (uncBase a fo ped) "amount" = some (.num a) := by
  cases fo <;> cases ped <;>
    simp +decide [uncBase, Obj.set, alistGet_set_ne, alistGet]

theorem uncBase_get_none (a : ℚ) (fo : Option String)
    (ped : Option PedigreeMatrix) (k : String) (h1 : k ≠ "amount")
    (h2 : k ≠ "formula") (h3 : k ≠ "pedigree") :
    alistGet (uncBase a fo ped) k = none := by
  cases fo <;> cases ped <;>
    simp [uncBase, Obj.set, alistGet_set_ne, alistGet,
      h2, h3, Ne.symm h1, Ne.symm h2, Ne.symm h3]

/-- Dictionary state handed to the result (or to `abort_exchange`) in the
log-normal branch of `extract_uncertainty_dict`. -/
def lgDict (a : ℚ) (fo : Option String) (ped : Option PedigreeMatrix)
    (mu s : ℚ) (var : Option ℚ) : Obj :=
  let d := (((uncBase a fo ped).set "uncertainty type"
    (.num LognormalUncertainty_id)).set "loc" (.num mu)).set "scale" (.num s)
  match var with
  | some v => d.set "scale without pedigree" (.num v)
  | none => d

theorem extract_lognormal (a : ℚ) (fo : Option String)
    (ped : Option PedigreeMatrix) (mu s : ℚ) (var : Option ℚ) :
    extract_uncertainty_dict ⟨a, fo, some ⟨ped, .lognormal ⟨mu, s, var⟩⟩⟩ =
    if s ≤ 0 ∨ 25 < s then abort_exchange (lgDict a fo ped mu s var)
    else some (lgDict a fo ped mu s var) := rfl

theorem lgDict_get (a : ℚ) (fo : Option String) (ped : Option PedigreeMatrix)
    (mu s : ℚ) (var : Option ℚ) :
    alistGet (lgDict a fo ped mu s var) "uncertainty type" =
      some (.num LognormalUncertainty_id) ∧
    alistGet (lgDict a fo ped mu s var) "loc" = some (.num mu) ∧
    alistGet (lgDict a fo ped mu s var) "scale" = some (.num s) ∧
    alistGet (lgDict a fo ped mu s var) "amount" = some (.num a) ∧
    alistGet (lgDict a fo ped mu s var) "shape" = none ∧
    alistGet (lgDict a fo ped mu s var) "minimum" = none ∧
    alistGet (lgDict a fo ped mu s var) "maximum" = none ∧
    alistGet (lgDict a fo ped mu s var) "comment" = none := by
  cases var <;>
    refine ⟨?_, ?_, ?_, ?_, ?_, ?_, ?_, ?_⟩ <;>
      simp +decide [lgDict, Obj.set, alistGet_set_self,
        alistGet_set_ne, uncBase_get_amount, uncBase_get_none]

/-- Dictionary produced by `abort_exchange` when `amount` holds `av` and
the prior comment is `c0` (or absent, with `c0 = ""`). -/
def abortResult (exc : Obj) (av : Val) (c0 : String) : Obj :=
  ((((((exc.set "uncertainty type" (.num UndefinedUncertainty_id)).set
    "loc" av).del "scale").del "shape").del "minimum").del "maximum").set
    "comment" (.str (c0 ++ invalidNote))

theorem abort_exchange_eq (exc : Obj) (av : Val) (c0 : String)
    (ha : exc.get "amount" = some av)
    (hc : exc.get "comment" = none ∧ c0 = "" ∨
      exc.get "comment" = some (.str c0)) :
    abort_exchange exc = some (abortResult exc av c0) := by
  have h1 : (exc.set "uncertainty type"
      (.num UndefinedUncertainty_id)).get "amount" = some av := by
    simp +decide [Obj.get, Obj.set, alistGet_set_ne]
    exact ha
  have h2 : ((((((exc.set "uncertainty type"
      (.num UndefinedUncertainty_id)).set "loc" av).del "scale").del
      "shape").del "minimum").del "maximum").get "comment" =
      exc.get "comment" := by
    simp +decide [Obj.get, Obj.set, Obj.del, alistGet_del_ne, alistGet_set_ne]
  rcases hc with ⟨hc, rfl⟩ | hc <;>
    simp only [abort_exchange, h1, h2, hc, abortResult]

theorem abortResult_get (exc : Obj) (av : Val) (c0 : String) :
    alistGet (abortResult exc av c0) "uncertainty type" =
      some (.num UndefinedUncertainty_id) ∧
    alistGet (abortResult exc av c0) "loc" = some av ∧
    alistGet (abortResult exc av c0) "scale" = none ∧
    alistGet (abortResult exc av c0) "shape" = none ∧
    alistGet (abortResult exc av c0) "minimum" = none ∧
    alistGet (abortResult exc av c0) "maximum" = none ∧
    alistGet (abortResult exc av c0) "comment" =
      some (.str (c0 ++ invalidNote)) := by
  refine ⟨?_, ?_, ?_, ?_, ?_, ?_, ?_⟩ <;>
    simp +decide [abortResult, Obj.set, Obj.del, alistGet_set_self,
      alistGet_set_ne, alistGet_del_self, alistGet_del_ne]

theorem abortResult_get_frame (exc : Obj) (av : Val) (c0 : String)
    (k : String) (h1 : k ≠ "uncertainty type") (h2 : k ≠ "loc")
    (h3 : k ≠ "scale") (h4 : k ≠ "shape") (h5 : k ≠ "minimum")
    (h6 : k ≠ "maximum") (h7 : k ≠ "comment") :
    alistGet (abortResult exc av c0) k = alistGet exc k := by
  simp [abortResult, Obj.set, Obj.del, alistGet_set_ne,
    alistGet_del_ne, h1, h2, h3, h4, h5, h6, h7]

theorem empty_append_str (s : String) : "" ++ s = s := by
  apply String.ext
  simp

/-- C1: for an extracted exchange or parameter carrying a log-normal
uncertainty block, a computed scale (`varianceWithPedigreeUncertainty`)
that is non-positive or strictly greater than 25 demotes the result to the
canonical undefined kind — `loc` equals the original point amount, the
`scale`, `shape`, `minimum` and `maximum` fields are absent from the
result, and the demotion note is appended to the comment (the dictionary
built by `extract_uncertainty_dict` carries no prior comment, so the
resulting comment is exactly the note) — while a scale in (0, 25] retains
the log-normal kind with its location `mu` and its scale. -/
theorem lognormal_fallback (i : UncInput) (ped : Option PedigreeMatrix)
    (b : LognormalBlock)
    (hu : i.uncertainty = some ⟨ped, .lognormal b⟩) :
    ((b.varianceWithPedigreeUncertainty ≤ 0 ∨
        25 < b.varianceWithPedigreeUncertainty) →
      (extract_uncertainty_dict i).isSome = true ∧
      resGet (extract_uncertainty_dict i) "uncertainty type" =
        some (.num UndefinedUncertainty_id) ∧
      resGet (extract_uncertainty_dict i) "loc" = some (.num i.amount) ∧
      resGet (extract_uncertainty_dict i) "scale" = none ∧
      resGet (extract_uncertainty_dict i) "shape" = none ∧
      resGet (extract_uncertainty_dict i) "minimum" = none ∧
      resGet (extract_uncertainty_dict i) "maximum" = none ∧
      resGet (extract_uncertainty_dict i) "comment" =
        some (.str invalidNote)) ∧
    ((0 < b.varianceWithPedigreeUncertainty ∧
        b.varianceWithPedigreeUncertainty ≤ 25) →
      (extract_uncertainty_dict i).isSome = true ∧
      resGet (extract_uncertainty_dict i) "uncertainty type" =
        some (.num LognormalUncertainty_id) ∧
      resGet (extract_uncertainty_dict i) "loc" = some (.num b.mu) ∧
      resGet (extract_uncertainty_dict i) "scale" =
        some (.num b.varianceWithPedigreeUncertainty) ∧
      resGet (extract_uncertainty_dict i) "shape" = none ∧
      resGet (extract_uncertainty_dict i) "minimum" = none ∧
      resGet (extract_uncertainty_dict i) "maximum" = none) := by
  obtain ⟨a, fo, un⟩ := i
  replace hu : un = some ⟨ped, .lognormal b⟩ := hu
  subst hu
  obtain ⟨mu, s, var⟩ := b
  constructor
  · intro hcond
    have habort := abort_exchange_eq (lgDict a fo ped mu s var) (.num a) ""
      ((lgDict_get a fo ped mu s var).2.2.2.1)
      (Or.inl ⟨(lgDict_get a fo ped mu s var).2.2.2.2.2.2.2, rfl⟩)
    rw [extract_lognormal, if_pos hcond, habort]
    obtain ⟨g1, g2, g3, g4, g5, g6, g7⟩ :=
      abortResult_get (lgDict a fo ped mu s var) (.num a) ""
    rw [empty_append_str] at g7
    exact ⟨rfl, by simpa [resGet, Obj.get] using g1,
      by simpa [resGet, Obj.get] using g2,
      by simpa [resGet, Obj.get] using g3,
      by simpa [resGet, Obj.get] using g4,
      by simpa [resGet, Obj.get] using g5,
      by simpa [resGet, Obj.get] using g6,
      by simpa [resGet, Obj.get] using g7⟩
  · intro hcond
    have hneg : ¬(s ≤ 0 ∨ 25 < s) := by
      rintro (h | h)
      · linarith [hcond.1]
      · linarith [hcond.2]
    rw [extract_lognormal, if_neg hneg]
    obtain ⟨g1, g2, g3, g4, g5, g6, g7, g8⟩ := lgDict_get a fo ped mu s var
    exact ⟨rfl, by simpa [resGet, Obj.get] using g1,
      by simpa [resGet, Obj.get] using g2,
      by simpa [resGet, Obj.get] using g3,
      by simpa [resGet, Obj.get] using g5,
      by simpa [resGet, Obj.get] using g6,
      by simpa [resGet, Obj.get] using g7⟩

/-- Witness for `lognormal_fallback`: the spec's example, a log-normal
block with scale 30 and point amount 4 is demoted. -/
theorem lognormal_fallback_witness :
    ((30 : ℚ) ≤ 0 ∨ (25 : ℚ) < 30 →
      (extract_uncertainty_dict
        ⟨4, none, some ⟨none, .lognormal ⟨1, 30, none⟩⟩⟩).isSome = true ∧
      resGet (extract_uncertainty_dict
        ⟨4, none, some ⟨none, .lognormal ⟨1, 30, none⟩⟩⟩)
        "uncertainty type" = some (.num UndefinedUncertainty_id) ∧
      resGet (extract_uncertainty_dict
        ⟨4, none, some ⟨none, .lognormal ⟨1, 30, none⟩⟩⟩) "loc" =
        some (.num 4) ∧
      resGet (extract_uncertainty_dict
        ⟨4, none, some ⟨none, .lognormal ⟨1, 30, none⟩⟩⟩) "scale" = none ∧
      resGet (extract_uncertainty_dict
        ⟨4, none, some ⟨none, .lognormal ⟨1, 30, none⟩⟩⟩) "shape" = none ∧
      resGet (extract_uncertainty_dict
        ⟨4, none, some ⟨none, .lognormal ⟨1, 30, none⟩⟩⟩) "minimum" =
        none ∧
      resGet (extract_uncertainty_dict
        ⟨4, none, some ⟨none, .lognormal ⟨1, 30, none⟩⟩⟩) "maximum" =
        none ∧
      resGet (extract_uncertainty_dict
        ⟨4, none, some ⟨none, .lognormal ⟨1, 30, none⟩⟩⟩) "comment" =
        some (.str invalidNote)) ∧
    ((0 : ℚ) < 30 ∧ (30 : ℚ) ≤ 25 →
      (extract_uncertainty_dict
        ⟨4, none, some ⟨none, .lognormal ⟨1, 30, none⟩⟩⟩).isSome = true ∧
      resGet (extract_uncertainty_dict
        ⟨4, none, some ⟨none, .lognormal ⟨1, 30, none⟩⟩⟩)
        "uncertainty type" = some (.num LognormalUncertainty_id) ∧
      resGet (extract_uncertainty_dict
        ⟨4, none, some ⟨none, .lognormal ⟨1, 30, none⟩⟩⟩) "loc" =
        some (.num 1) ∧
      resGet (extract_uncertainty_dict
        ⟨4, none, some ⟨none, .lognormal ⟨1, 30, none⟩⟩⟩) "scale" =
        some (.num 30) ∧
      resGet (extract_uncertainty_dict
        ⟨4, none, some ⟨none, .lognormal ⟨1, 30, none⟩⟩⟩) "shape" = none ∧
      resGet (extract_uncertainty_dict
        ⟨4, none, some ⟨none, .lognormal ⟨1, 30, none⟩⟩⟩) "minimum" =
        none ∧
      resGet (extract_uncertainty_dict
        ⟨4, none, some ⟨none, .lognormal ⟨1, 30, none⟩⟩⟩) "maximum" =
        none) :=
  lognormal_fallback ⟨4, none, some ⟨none, .lognormal ⟨1, 30, none⟩⟩⟩
    none ⟨1, 30, none⟩ rfl

/-- Dictionary state handed to the result (or to `abort_exchange`) in the
normal branch of `extract_uncertainty_dict`. -/
def nmDict (a : ℚ) (fo : Option String) (ped : Option PedigreeMatrix)
    (mean s : ℚ) (var : Option ℚ) : Obj :=
  let d := (((uncBase a fo ped).set "uncertainty type"
    (.num NormalUncertainty_id)).set "loc" (.num mean)).set "scale" (.num s)
  match var with
  | some v => d.set "scale without pedigree" (.num v)
  | none => d

theorem extract_normal (a : ℚ) (fo : Option String)
    (ped : Option PedigreeMatrix) (mean s : ℚ) (var : Option ℚ) :
    extract_uncertainty_dict ⟨a, fo, some ⟨ped, .normal ⟨mean, s, var⟩⟩⟩ =
    if s ≤ 0 then abort_exchange (nmDict a fo ped mean s var)
    else some (nmDict a fo ped mean s var) := rfl

theorem nmDict_get (a : ℚ) (fo : Option String) (ped : Option PedigreeMatrix)
    (mean s : ℚ) (var : Option ℚ) :
    alistGet (nmDict a fo ped mean s var) "uncertainty type" =
      some (.num NormalUncertainty_id) ∧
    alistGet (nmDict a fo ped mean s var) "loc" = some (.num mean) ∧
    alistGet (nmDict a fo ped mean s var) "scale" = some (.num s) ∧
    alistGet (nmDict a fo ped mean s var) "amount" = some (.num a) ∧
    alistGet (nmDict a fo ped mean s var) "shape" = none ∧
    alistGet (nmDict a fo ped mean s var) "minimum" = none ∧
    alistGet (nmDict a fo ped mean s var) "maximum" = none ∧
    alistGet (nmDict a fo ped mean s var) "comment" = none := by
  cases var <;>
    refine ⟨?_, ?_, ?_, ?_, ?_, ?_, ?_, ?_⟩ <;>
      simp +decide [nmDict, Obj.set, alistGet_set_self,
        alistGet_set_ne, uncBase_get_amount, uncBase_get_none]

/-- C5: for an extracted exchange or parameter carrying a normal
uncertainty block, demotion to the undefined kind happens exactly when the
computed scale is non-positive; no ceiling is applied: any positive scale
(the witness uses 30, above the log-normal ceiling) retains the normal
kind, its location and its scale. -/
theorem normal_fallback (i : UncInput) (ped : Option PedigreeMatrix)
    (b : NormalBlock)
    (hu : i.uncertainty = some ⟨ped, .normal b⟩) :
    ((b.varianceWithPedigreeUncertainty ≤ 0) →
      (extract_uncertainty_dict i).isSome = true ∧
      resGet (extract_uncertainty_dict i) "uncertainty type" =
        some (.num UndefinedUncertainty_id) ∧
      resGet (extract_uncertainty_dict i) "loc" = some (.num i.amount) ∧
      resGet (extract_uncertainty_dict i) "scale" = none ∧
      resGet (extract_uncertainty_dict i) "shape" = none ∧
      resGet (extract_uncertainty_dict i) "minimum" = none ∧
      resGet (extract_uncertainty_dict i) "maximum" = none ∧
      resGet (extract_uncertainty_dict i) "comment" =
        some (.str invalidNote)) ∧
    ((0 < b.varianceWithPedigreeUncertainty) →
      (extract_uncertainty_dict i).isSome = true ∧
      resGet (extract_uncertainty_dict i) "uncertainty type" =
        some (.num NormalUncertainty_id) ∧
      resGet (extract_uncertainty_dict i) "loc" = some (.num b.meanValue) ∧
      resGet (extract_uncertainty_dict i) "scale" =
        some (.num b.varianceWithPedigreeUncertainty) ∧
      resGet (extract_uncertainty_dict i) "shape" = none ∧
      resGet (extract_uncertainty_dict i) "minimum" = none ∧
      resGet (extract_uncertainty_dict i) "maximum" = none) := by
  obtain ⟨a, fo, un⟩ := i
  replace hu : un = some ⟨ped, .normal b⟩ := hu
  subst hu
  obtain ⟨mean, s, var⟩ := b
  constructor
  · intro hcond
    have habort := abort_exchange_eq (nmDict a fo ped mean s var) (.num a) ""
      ((nmDict_get a fo ped mean s var).2.2.2.1)
      (Or.inl ⟨(nmDict_get a fo ped mean s var).2.2.2.2.2.2.2, rfl⟩)
    rw [extract_normal, if_pos hcond, habort]
    obtain ⟨g1, g2, g3, g4, g5, g6, g7⟩ :=
      abortResult_get (nmDict a fo ped mean s var) (.num a) ""
    rw [empty_append_str] at g7
    exact ⟨rfl, by simpa [resGet, Obj.get] using g1,
      by simpa [resGet, Obj.get] using g2,
      by simpa [resGet, Obj.get] using g3,
      by simpa [resGet, Obj.get] using g4,
      by simpa [resGet, Obj.get] using g5,
      by simpa [resGet, Obj.get] using g6,
      by simpa [resGet, Obj.get] using g7⟩
  · intro hcond
    have hneg : ¬(s ≤ 0) := not_le.mpr hcond
    rw [extract_normal, if_neg hneg]
    obtain ⟨g1, g2, g3, g4, g5, g6, g7, g8⟩ := nmDict_get a fo ped mean s var
    exact ⟨rfl, by simpa [resGet, Obj.get] using g1,
      by simpa [resGet, Obj.get] using g2,
      by simpa [resGet, Obj.get] using g3,
      by simpa [resGet, Obj.get] using g5,
      by simpa [resGet, Obj.get] using g6,
      by simpa [resGet, Obj.get] using g7⟩

/-- Witness for `normal_fallback`: a normal block with scale 30 (above
the log-normal ceiling) and point amount 4 is retained. -/
theorem normal_fallback_witness :
    ((30 : ℚ) ≤ 0 →
      (extract_uncertainty_dict
        ⟨4, none, some ⟨none, .normal ⟨7, 30, none⟩⟩⟩).isSome = true ∧
      resGet (extract_uncertainty_dict
        ⟨4, none, some ⟨none, .normal ⟨7, 30, none⟩⟩⟩)
        "uncertainty type" = some (.num UndefinedUncertainty_id) ∧
      resGet (extract_uncertainty_dict
        ⟨4, none, some ⟨none, .normal ⟨7, 30, none⟩⟩⟩) "loc" =
        some (.num 4) ∧
      resGet (extract_uncertainty_dict
        ⟨4, none, some ⟨none, .normal ⟨7, 30, none⟩⟩⟩) "scale" = none ∧
      resGet (extract_uncertainty_dict
        ⟨4, none, some ⟨none, .normal ⟨7, 30, none⟩⟩⟩) "shape" = none ∧
      resGet (extract_uncertainty_dict
        ⟨4, none, some ⟨none, .normal ⟨7, 30, none⟩⟩⟩) "minimum" = none ∧
      resGet (extract_uncertainty_dict
        ⟨4, none, some ⟨none, .normal ⟨7, 30, none⟩⟩⟩) "maximum" = none ∧
      resGet (extract_uncertainty_dict
        ⟨4, none, some ⟨none, .normal ⟨7, 30, none⟩⟩⟩) "comment" =
        some (.str invalidNote)) ∧
    ((0 : ℚ) < 30 →
      (extract_uncertainty_dict
        ⟨4, none, some ⟨none, .normal ⟨7, 30, none⟩⟩⟩).isSome = true ∧
      resGet (extract_uncertainty_dict
        ⟨4, none, some ⟨none, .normal ⟨7, 30, none⟩⟩⟩)
        "uncertainty type" = some (.num NormalUncertainty_id) ∧
      resGet (extract_uncertainty_dict
        ⟨4, none, some ⟨none, .normal ⟨7, 30, none⟩⟩⟩) "loc" =
        some (.num 7) ∧
      resGet (extract_uncertainty_dict
        ⟨4, none, some ⟨none, .normal ⟨7, 30, none⟩⟩⟩) "scale" =
        some (.num 30) ∧
      resGet (extract_uncertainty_dict
        ⟨4, none, some ⟨none, .normal ⟨7, 30, none⟩⟩⟩) "shape" = none ∧
      resGet (extract_uncertainty_dict
        ⟨4, none, some ⟨none, .normal ⟨7, 30, none⟩⟩⟩) "minimum" = none ∧
      resGet (extract_uncertainty_dict
        ⟨4, none, some ⟨none, .normal ⟨7, 30, none⟩⟩⟩) "maximum" = none) :=
  normal_fallback ⟨4, none, some ⟨none, .normal ⟨7, 30, none⟩⟩⟩
    none ⟨7, 30, none⟩ rfl

/-- Dictionary state handed to the result (or to `abort_exchange`) in the
triangular branch of `extract_uncertainty_dict`. -/
def trDict (a : ℚ) (fo : Option String) (ped : Option PedigreeMatrix)
    (mn lk mx : ℚ) : Obj :=
  (((uncBase a fo ped).set "uncertainty type"
    (.num TriangularUncertainty_id)).set "minimum" (.num mn)).set
    "loc" (.num lk) |>.set "maximum" (.num mx)

theorem extract_triangular (a : ℚ) (fo : Option String)
    (ped : Option PedigreeMatrix) (mn lk mx : ℚ) :
    extract_uncertainty_dict ⟨a, fo, some ⟨ped, .triangular ⟨mn, lk, mx⟩⟩⟩ =
    if mx ≤ mn then abort_exchange (trDict a fo ped mn lk mx)
    else some (trDict a fo ped mn lk mx) := rfl

theorem trDict_get (a : ℚ) (fo : Option String) (ped : Option PedigreeMatrix)
    (mn lk mx : ℚ) :
    alistGet (trDict a fo ped mn lk mx) "uncertainty type" =
      some (.num TriangularUncertainty_id) ∧
    alistGet (trDict a fo ped mn lk mx) "minimum" = some (.num mn) ∧
    alistGet (trDict a fo ped mn lk mx) "loc" = some (.num lk) ∧
    alistGet (trDict a fo ped mn lk mx) "maximum" = some (.num mx) ∧
    alistGet (trDict a fo ped mn lk mx) "amount" = some (.num a) ∧
    alistGet (trDict a fo ped mn lk mx) "scale" = none ∧
    alistGet (trDict a fo ped mn lk mx) "shape" = none ∧
    alistGet (trDict a fo ped mn lk mx) "comment" = none := by
  refine ⟨?_, ?_, ?_, ?_, ?_, ?_, ?_, ?_⟩ <;>
    simp +decide [trDict, Obj.set, alistGet_set_self,
      alistGet_set_ne, uncBase_get_amount, uncBase_get_none]

/-- Dictionary state handed to the result (or to `abort_exchange`) in the
uniform branch of `extract_uncertainty_dict`. -/
def unDict (a : ℚ) (fo : Option String) (ped : Option PedigreeMatrix)
    (mn mx : ℚ) : Obj :=
  (((uncBase a fo ped).set "uncertainty type"
    (.num UniformUncertainty_id)).set "loc" (.num a)).set
    "minimum" (.num mn) |>.set "maximum" (.num mx)

theorem extract_uniform (a : ℚ) (fo : Option String)
    (ped : Option PedigreeMatrix) (mn mx : ℚ) :
    extract_uncertainty_dict ⟨a, fo, some ⟨ped, .uniform ⟨mn, mx⟩⟩⟩ =
    if mx ≤ mn then abort_exchange (unDict a fo ped mn mx)
    else some (unDict a fo ped mn mx) := rfl

theorem unDict_get (a : ℚ) (fo : Option String) (ped : Option PedigreeMatrix)
    (mn mx : ℚ) :
    alistGet (unDict a fo ped mn mx) "uncertainty type" =
      some (.num UniformUncertainty_id) ∧
    alistGet (unDict a fo ped mn mx) "loc" = some (.num a) ∧
    alistGet (unDict a fo ped mn mx) "minimum" = some (.num mn) ∧
    alistGet (unDict a fo ped mn mx) "maximum" = some (.num mx) ∧
    alistGet (unDict a fo ped mn mx) "amount" = some (.num a) ∧
    alistGet (unDict a fo ped mn mx) "scale" = none ∧
    alistGet (unDict a fo ped mn mx) "shape" = none ∧
    alistGet (unDict a fo ped mn mx) "comment" = none := by
  refine ⟨?_, ?_, ?_, ?_, ?_, ?_, ?_, ?_⟩ <;>
    simp +decide [unDict, Obj.set, alistGet_set_self,
      alistGet_set_ne, uncBase_get_amount, uncBase_get_none]

/-- C6: for an extracted exchange or parameter carrying a triangular or a
uniform uncertainty block, the result is demoted to the undefined kind
exactly when the minimum is not strictly below the maximum; otherwise the
kind and its minimum/maximum are retained, with the most-likely value as
`loc` for triangular and `loc` pinned to the point amount for uniform. -/
theorem triangular_uniform_fallback (i : UncInput) :
    (∀ ped b, i.uncertainty = some ⟨ped, .triangular b⟩ →
      ((b.maxValue ≤ b.minValue →
        (extract_uncertainty_dict i).isSome = true ∧
        resGet (extract_uncertainty_dict i) "uncertainty type" =
          some (.num UndefinedUncertainty_id) ∧
        resGet (extract_uncertainty_dict i) "loc" = some (.num i.amount) ∧
        resGet (extract_uncertainty_dict i) "scale" = none ∧
        resGet (extract_uncertainty_dict i) "shape" = none ∧
        resGet (extract_uncertainty_dict i) "minimum" = none ∧
        resGet (extract_uncertainty_dict i) "maximum" = none ∧
        resGet (extract_uncertainty_dict i) "comment" =
          some (.str invalidNote)) ∧
      (b.minValue < b.maxValue →
        (extract_uncertainty_dict i).isSome = true ∧
        resGet (extract_uncertainty_dict i) "uncertainty type" =
          some (.num TriangularUncertainty_id) ∧
        resGet (extract_uncertainty_dict i) "minimum" =
          some (.num b.minValue) ∧
        resGet (extract_uncertainty_dict i) "loc" =
          some (.num b.mostLikelyValue) ∧
        resGet (extract_uncertainty_dict i) "maximum" =
          some (.num b.maxValue)))) ∧
    (∀ ped b, i.uncertainty = some ⟨ped, .uniform b⟩ →
      ((b.maxValue ≤ b.minValue →
        (extract_uncertainty_dict i).isSome = true ∧
        resGet (extract_uncertainty_dict i) "uncertainty type" =
          some (.num UndefinedUncertainty_id) ∧
        resGet (extract_uncertainty_dict i) "loc" = some (.num i.amount) ∧
        resGet (extract_uncertainty_dict i) "scale" = none ∧
        resGet (extract_uncertainty_dict i) "shape" = none ∧
        resGet (extract_uncertainty_dict i) "minimum" = none ∧
        resGet (extract_uncertainty_dict i) "maximum" = none ∧
        resGet (extract_uncertainty_dict i) "comment" =
          some (.str invalidNote)) ∧
      (b.minValue < b.maxValue →
        (extract_uncertainty_dict i).isSome = true ∧
        resGet (extract_uncertainty_dict i) "uncertainty type" =
          some (.num UniformUncertainty_id) ∧
        resGet (extract_uncertainty_dict i) "loc" = some (.num i.amount) ∧
        resGet (extract_uncertainty_dict i) "minimum" =
          some (.num b.minValue) ∧
        resGet (extract_uncertainty_dict i) "maximum" =
          some (.num b.maxValue)))) := by
  obtain ⟨a, fo, un⟩ := i
  constructor
  · rintro ped ⟨mn, lk, mx⟩ hu
    replace hu : un = some ⟨ped, .triangular ⟨mn, lk, mx⟩⟩ := hu
    subst hu
    constructor
    · intro hcond
      have habort := abort_exchange_eq (trDict a fo ped mn lk mx) (.num a) ""
        ((trDict_get a fo ped mn lk mx).2.2.2.2.1)
        (Or.inl ⟨(trDict_get a fo ped mn lk mx).2.2.2.2.2.2.2, rfl⟩)
      rw [extract_triangular, if_pos hcond, habort]
      obtain ⟨g1, g2, g3, g4, g5, g6, g7⟩ :=
        abortResult_get (trDict a fo ped mn lk mx) (.num a) ""
      rw [empty_append_str] at g7
      exact ⟨rfl, by simpa [resGet, Obj.get] using g1,
        by simpa [resGet, Obj.get] using g2,
        by simpa [resGet, Obj.get] using g3,
        by simpa [resGet, Obj.get] using g4,
        by simpa [resGet, Obj.get] using g5,
        by simpa [resGet, Obj.get] using g6,
        by simpa [resGet, Obj.get] using g7⟩
    · intro hcond
      rw [extract_triangular, if_neg (not_le.mpr hcond)]
      obtain ⟨g1, g2, g3, g4, g5, g6, g7, g8⟩ := trDict_get a fo ped mn lk mx
      exact ⟨rfl, by simpa [resGet, Obj.get] using g1,
        by simpa [resGet, Obj.get] using g2,
        by simpa [resGet, Obj.get] using g3,
        by simpa [resGet, Obj.get] using g4⟩
  · rintro ped ⟨mn, mx⟩ hu
    replace hu : un = some ⟨ped, .uniform ⟨mn, mx⟩⟩ := hu
    subst hu
    constructor
    · intro hcond
      have habort := abort_exchange_eq (unDict a fo ped mn mx) (.num a) ""
        ((unDict_get a fo ped mn mx).2.2.2.2.1)
        (Or.inl ⟨(unDict_get a fo ped mn mx).2.2.2.2.2.2.2, rfl⟩)
      rw [extract_uniform, if_pos hcond, habort]
      obtain ⟨g1, g2, g3, g4, g5, g6, g7⟩ :=
        abortResult_get (unDict a fo ped mn mx) (.num a) ""
      rw [empty_append_str] at g7
      exact ⟨rfl, by simpa [resGet, Obj.get] using g1,
        by simpa [resGet, Obj.get] using g2,
        by simpa [resGet, Obj.get] using g3,
        by simpa [resGet, Obj.get] using g4,
        by simpa [resGet, Obj.get] using g5,
        by simpa [resGet, Obj.get] using g6,
        by simpa [resGet, Obj.get] using g7⟩
    · intro hcond
      rw [extract_uniform, if_neg (not_le.mpr hcond)]
      obtain ⟨g1, g2, g3, g4, g5, g6, g7, g8⟩ := unDict_get a fo ped mn mx
      exact ⟨rfl, by simpa [resGet, Obj.get] using g1,
        by simpa [resGet, Obj.get] using g2,
        by simpa [resGet, Obj.get] using g3,
        by simpa [resGet, Obj.get] using g4⟩

/-- Witness for `triangular_uniform_fallback`: the spec's examples —
triangular minimum 5, most-likely 10, maximum 3 is demoted; triangular
minimum 3, most-likely 10, maximum 20 is retained; a uniform block with
minimum 1, maximum 2 and point amount 4 keeps `loc` pinned to 4. -/
theorem triangular_uniform_fallback_witness :
    (resGet (extract_uncertainty_dict
      ⟨4, none, some ⟨none, .triangular ⟨5, 10, 3⟩⟩⟩) "uncertainty type" =
      some (.num UndefinedUncertainty_id) ∧
     resGet (extract_uncertainty_dict
      ⟨4, none, some ⟨none, .triangular ⟨5, 10, 3⟩⟩⟩) "loc" =
      some (.num 4)) ∧
    (resGet (extract_uncertainty_dict
      ⟨4, none, some ⟨none, .triangular ⟨3, 10, 20⟩⟩⟩) "uncertainty type" =
      some (.num TriangularUncertainty_id) ∧
     resGet (extract_uncertainty_dict
      ⟨4, none, some ⟨none, .triangular ⟨3, 10, 20⟩⟩⟩) "loc" =
      some (.num 10)) ∧
    (resGet (extract_uncertainty_dict
      ⟨4, none, some ⟨none, .uniform ⟨1, 2⟩⟩⟩) "uncertainty type" =
      some (.num UniformUncertainty_id) ∧
     resGet (extract_uncertainty_dict
      ⟨4, none, some ⟨none, .uniform ⟨1, 2⟩⟩⟩) "loc" = some (.num 4)) := by
  have h1 := (((triangular_uniform_fallback
    ⟨4, none, some ⟨none, .triangular ⟨5, 10, 3⟩⟩⟩).1 none ⟨5, 10, 3⟩
    rfl).1 (by norm_num))
  have h2 := (((triangular_uniform_fallback
    ⟨4, none, some ⟨none, .triangular ⟨3, 10, 20⟩⟩⟩).1 none ⟨3, 10, 20⟩
    rfl).2 (by norm_num))
  have h3 := (((triangular_uniform_fallback
    ⟨4, none, some ⟨none, .uniform ⟨1, 2⟩⟩⟩).2 none ⟨1, 2⟩
    rfl).2 (by norm_num))
  exact ⟨⟨h1.2.1, h1.2.2.1⟩, ⟨h2.2.1, h2.2.2.2.1⟩, ⟨h3.2.1, h3.2.2.1⟩⟩

/-- C10: a demotion by `abort_exchange` removes exactly the keys `scale`,
`shape`, `minimum`, `maximum`, rewrites exactly `uncertainty type`, `loc`
(to the point amount) and `comment` (appending the note to the prior
comment text, empty when absent), and every other key — such as `amount`,
`formula`, `pedigree`, and `scale without pedigree` — keeps its prior
value. -/
theorem abort_exchange_frame (exc : Obj) (av : Val) (c0 : String)
    (ha : exc.get "amount" = some av)
    (hc : exc.get "comment" = none ∧ c0 = "" ∨
      exc.get "comment" = some (.str c0)) :
    ∃ r, abort_exchange exc = some r ∧
      r.get "uncertainty type" = some (.num UndefinedUncertainty_id) ∧
      r.get "loc" = some av ∧
      r.get "scale" = none ∧
      r.get "shape" = none ∧
      r.get "minimum" = none ∧
      r.get "maximum" = none ∧
      r.get "comment" = some (.str (c0 ++ invalidNote)) ∧
      (∀ k, k ≠ "uncertainty type" → k ≠ "loc" → k ≠ "scale" →
        k ≠ "shape" → k ≠ "minimum" → k ≠ "maximum" → k ≠ "comment" →
        r.get k = exc.get k) := by
  obtain ⟨g1, g2, g3, g4, g5, g6, g7⟩ := abortResult_get exc av c0
  exact ⟨abortResult exc av c0, abort_exchange_eq exc av c0 ha hc,
    g1, g2, g3, g4, g5, g6, g7,
    fun k h1 h2 h3 h4 h5 h6 h7 =>
      abortResult_get_frame exc av c0 k h1 h2 h3 h4 h5 h6 h7⟩

/-- Concrete exchange dictionary exercising `abort_exchange_frame`. -/
def frameExc : Obj :=
  [("amount", .num 4), ("formula", .str "x * 2"),
   ("pedigree", pedigreeVal ⟨1, 2, 3, 4, 5⟩),
   ("uncertainty type", .num 2), ("loc", .num 1), ("scale", .num 30),
   ("scale without pedigree", .num 9)]

/-- Witness for `abort_exchange_frame` at a concrete dictionary carrying
`amount`, `formula`, `pedigree`, a log-normal tag and
`scale without pedigree`. -/
theorem abort_exchange_frame_witness :
    (Obj.get frameExc "amount" = some (.num 4)) ∧
    (Obj.get frameExc "comment" = none ∧ "" = "" ∨
      Obj.get frameExc "comment" = some (.str "")) ∧
    (∃ r, abort_exchange frameExc = some r ∧
      r.get "uncertainty type" = some (.num UndefinedUncertainty_id) ∧
      r.get "loc" = some (.num 4) ∧
      r.get "scale" = none ∧
      r.get "shape" = none ∧
      r.get "minimum" = none ∧
      r.get "maximum" = none ∧
      r.get "comment" = some (.str ("" ++ invalidNote)) ∧
      (∀ k, k ≠ "uncertainty type" → k ≠ "loc" → k ≠ "scale" →
        k ≠ "shape" → k ≠ "minimum" → k ≠ "maximum" → k ≠ "comment" →
        r.get k = frameExc.get k)) :=
  ⟨by decide, Or.inl ⟨by decide, rfl⟩,
   abort_exchange_frame frameExc (.num 4) "" (by decide)
     (Or.inl ⟨by decide, rfl⟩)⟩

/-! ### Infrastructure for the linking claims -/

/-- The candidates in `pool` whose fingerprint over `fields` is `k`. -/
def hashMatches (h : Obj → List String → String) (fields : List String)
    (k : String) (pool : List Obj) : List Obj :=
  pool.filter (fun ds => decide (h ds fields = k))

/-- List held by an optional duplicates-registry entry. -/
def optList (o : Option (List Obj)) : List Obj := o.getD []

theorem hashMatches_cons (h : Obj → List String → String)
    (fields : List String) (k : String) (ds : Obj) (pool : List Obj) :
    hashMatches h fields k (ds :: pool) =
    if h ds fields = k then ds :: hashMatches h fields k pool
    else hashMatches h fields k pool := by
  by_cases hk : h ds fields = k <;>
    simp [hashMatches, List.filter_cons, hk]

theorem dupAdd_get_self (dups : List (String × List Obj)) (k : String)
    (ds : Obj) :
    alistGet (dupAdd dups k ds) k =
      some (optList (alistGet dups k) ++ [ds]) := by
  induction dups with
  | nil => simp [dupAdd, alistGet, optList]
  | cons p t ih =>
    obtain ⟨k1, l1⟩ := p
    by_cases hk : k1 = k <;> simp [dupAdd, alistGet, hk, ih, optList]

theorem dupAdd_get_ne (dups : List (String × List Obj)) (k k1 : String)
    (ds : Obj) (hne : k1 ≠ k) :
    alistGet (dupAdd dups k ds) k1 = alistGet dups k1 := by
  induction dups with
  | nil => simp [dupAdd, alistGet, Ne.symm hne]
  | cons p t ih =>
    obtain ⟨k2, l2⟩ := p
    by_cases hk : k2 = k
    · subst hk
      simp [dupAdd, alistGet, Ne.symm hne]
    · simp [dupAdd, alistGet, hk, ih]

theorem dupAdd_entries (dups : List (String × List Obj)) (k : String)
    (ds : Obj) (hne : ∀ p ∈ dups, p.2 ≠ []) :
    ∀ p ∈ dupAdd dups k ds, p.2 ≠ [] := by
  induction dups with
  | nil =>
    intro p hp
    simp [dupAdd] at hp
    simp [hp]
  | cons q t ih =>
    obtain ⟨k2, l2⟩ := q
    intro p hp
    by_cases hk : k2 = k
    · simp [dupAdd, hk] at hp
      rcases hp with hp | hp
      · simp [hp]
      · exact hne p (List.mem_cons_of_mem _ hp)
    · simp [dupAdd, hk] at hp
      rcases hp with hp | hp
      · exact hne p (by simp [hp])
      · exact ih (fun q hq => hne q (List.mem_cons_of_mem _ hq)) p hp

theorem alistGet_mem {α : Type} (l : List (String × α)) (k : String) (v : α)
    (hv : alistGet l k = some v) : (k, v) ∈ l := by
  induction l with
  | nil => simp [alistGet] at hv
  | cons p t ih =>
    obtain ⟨k1, v1⟩ := p
    by_cases hk : k1 = k
    · subst hk
      simp [alistGet] at hv
      simp [hv]
    · simp [alistGet, hk] at hv
      exact List.mem_cons_of_mem _ (ih hv)

theorem buildIndex_spec (h : Obj → List String → String)
    (fields : List String) (pool : List Obj) :
    ∀ (cands : List (String × (Val × Val))) (dups : List (String × List Obj))
      (c : List (String × (Val × Val))) (d : List (String × List Obj)),
      buildIndex h fields pool cands dups = .ok (c, d) → ∀ k : String,
      ((alistGet cands k).isSome = true →
        alistGet c k = alistGet cands k ∧
        optList (alistGet d k) =
          optList (alistGet dups k) ++ hashMatches h fields k pool) ∧
      (alistGet cands k = none →
        (hashMatches h fields k pool = [] →
          alistGet c k = none ∧ alistGet d k = alistGet dups k) ∧
        (∀ ds tl, hashMatches h fields k pool = ds :: tl →
          (∃ db cd, Obj.get ds "database" = some db ∧
            Obj.get ds "code" = some cd ∧ alistGet c k = some (db, cd)) ∧
          optList (alistGet d k) = optList (alistGet dups k) ++ tl)) := by
  induction pool with
  | nil =>
    intro cands dups c d hb k
    simp only [buildIndex] at hb
    injection hb with h1
    injection h1 with h2 h3
    subst h2
    subst h3
    refine ⟨fun _ => ⟨rfl, by simp [hashMatches]⟩, fun hn => ⟨fun _ => ⟨hn, rfl⟩, fun ds tl hm => ?_⟩⟩
    simp [hashMatches] at hm
  | cons ds0 pool ih =>
    intro cands dups c d hb k
    simp only [buildIndex] at hb
    by_cases hc0 : (alistGet cands (h ds0 fields)).isSome = true
    · rw [if_pos hc0] at hb
      have IH := ih cands (dupAdd dups (h ds0 fields) ds0) c d hb
      constructor
      · intro hs
        obtain ⟨h1, h2⟩ := (IH k).1 hs
        refine ⟨h1, ?_⟩
        by_cases hk : h ds0 fields = k
        · subst hk
          rw [dupAdd_get_self] at h2
          simp only [optList, Option.getD] at h2 ⊢
          rw [hashMatches_cons, if_pos rfl]
          rw [h2]
          simp
        · rw [dupAdd_get_ne _ _ _ _ (Ne.symm hk)] at h2
          rw [hashMatches_cons, if_neg hk]
          exact h2
      · intro hn
        have hk : h ds0 fields ≠ k := by
          intro hkk
          rw [hkk, hn] at hc0
          simp at hc0
        obtain ⟨w1, w2⟩ := (IH k).2 hn
        constructor
        · intro hm
          rw [hashMatches_cons, if_neg hk] at hm
          obtain ⟨g1, g2⟩ := w1 hm
          rw [dupAdd_get_ne _ _ _ _ (Ne.symm hk)] at g2
          exact ⟨g1, g2⟩
        · intro ds tl hm
          rw [hashMatches_cons, if_neg hk] at hm
          obtain ⟨g1, g2⟩ := w2 ds tl hm
          rw [dupAdd_get_ne _ _ _ _ (Ne.symm hk)] at g2
          exact ⟨g1, g2⟩
    · rw [if_neg hc0] at hb
      cases hdb : Obj.get ds0 "database" with
      | none =>
        rw [hdb] at hb
        simp at hb
      | some db =>
        cases hcd : Obj.get ds0 "code" with
        | none =>
          rw [hdb, hcd] at hb
          simp at hb
        | some cd =>
          rw [hdb, hcd] at hb
          have IH := ih (alistSet cands (h ds0 fields) (db, cd)) dups c d hb
          constructor
          · intro hs
            have hk : h ds0 fields ≠ k := by
              intro hkk
              rw [hkk] at hc0
              exact hc0 hs
            have hs1 : (alistGet (alistSet cands (h ds0 fields) (db, cd))
                k).isSome = true := by
              rw [alistGet_set_ne _ _ _ _ (Ne.symm hk)]
              exact hs
            obtain ⟨g1, g2⟩ := (IH k).1 hs1
            rw [alistGet_set_ne _ _ _ _ (Ne.symm hk)] at g1
            refine ⟨g1, ?_⟩
            rw [hashMatches_cons, if_neg hk]
            exact g2
          · intro hn
            by_cases hk : h ds0 fields = k
            · subst hk
              have hs1 : (alistGet (alistSet cands (h ds0 fields) (db, cd))
                  (h ds0 fields)).isSome = true := by
                rw [alistGet_set_self]
                rfl
              obtain ⟨g1, g2⟩ := (IH (h ds0 fields)).1 hs1
              rw [alistGet_set_self] at g1
              constructor
              · intro hm
                rw [hashMatches_cons, if_pos rfl] at hm
                cases hm
              · intro ds tl hm
                rw [hashMatches_cons, if_pos rfl] at hm
                injection hm with hm1 hm2
                subst hm1
                subst hm2
                exact ⟨⟨db, cd, hdb, hcd, g1⟩, g2⟩
            · have hn1 : alistGet (alistSet cands (h ds0 fields) (db, cd))
                  k = none := by
                rw [alistGet_set_ne _ _ _ _ (Ne.symm hk)]
                exact hn
              obtain ⟨w1, w2⟩ := (IH k).2 hn1
              constructor
              · intro hm
                rw [hashMatches_cons, if_neg hk] at hm
                exact w1 hm
              · intro ds tl hm
                rw [hashMatches_cons, if_neg hk] at hm
                exact w2 ds tl hm

theorem buildIndex_entries (h : Obj → List String → String)
    (fields : List String) (pool : List Obj) :
    ∀ (cands : List (String × (Val × Val))) (dups : List (String × List Obj))
      (c : List (String × (Val × Val))) (d : List (String × List Obj)),
      buildIndex h fields pool cands dups = .ok (c, d) →
      (∀ p ∈ dups, p.2 ≠ []) → ∀ p ∈ d, p.2 ≠ [] := by
  induction pool with
  | nil =>
    intro cands dups c d hb hne
    simp only [buildIndex] at hb
    injection hb with h1
    injection h1 with h2 h3
    subst h3
    exact hne
  | cons ds0 pool ih =>
    intro cands dups c d hb hne
    simp only [buildIndex] at hb
    by_cases hc0 : (alistGet cands (h ds0 fields)).isSome = true
    · rw [if_pos hc0] at hb
      exact ih _ _ _ _ hb (dupAdd_entries _ _ _ hne)
    · rw [if_neg hc0] at hb
      cases hdb : Obj.get ds0 "database" with
      | none =>
        rw [hdb] at hb
        simp at hb
      | some db =>
        cases hcd : Obj.get ds0 "code" with
        | none =>
          rw [hdb, hcd] at hb
          simp at hb
        | some cd =>
          rw [hdb, hcd] at hb
          exact ih _ _ _ _ hb hne

/-- Outcome of the inner loop on one exchange that passes the filter and
has no duplicated fingerprint: `input` is set when the fingerprint is in
the candidate index, otherwise the exchange is untouched. -/
def procOne (h : Obj → List String → String) (fields : List String)
    (cands : List (String × (Val × Val))) (filt : Obj → Bool)
    (e : Obj) : Obj :=
  if filt e then
    match alistGet cands (h e fields) with
    | some p => e.set "input" (.pair p.1 p.2)
    | none => e
  else e

theorem processExchanges_cons (h : Obj → List String → String)
    (fields : List String) (cands : List (String × (Val × Val)))
    (dups : List (String × List Obj)) (filt : Obj → Bool) (e : Obj)
    (rest : List Obj) :
    processExchanges h fields cands dups filt (e :: rest) =
    if filt e then
      match alistGet dups (h e fields) with
      | some others => (e :: rest, some (.nonunique e others))
      | none =>
        ((match alistGet cands (h e fields) with
          | some p => e.set "input" (.pair p.1 p.2)
          | none => e) ::
          (processExchanges h fields cands dups filt rest).1,
         (processExchanges h fields cands dups filt rest).2)
    else
      (e :: (processExchanges h fields cands dups filt rest).1,
       (processExchanges h fields cands dups filt rest).2) := rfl

theorem processExchanges_untouched (h : Obj → List String → String)
    (fields : List String) (cands : List (String × (Val × Val)))
    (dups : List (String × List Obj)) (filt : Obj → Bool) :
    ∀ (l : List Obj) (i : ℕ) (e : Obj), l.get? i = some e →
      (filt e = false ∨ alistGet dups (h e fields) ≠ none) →
      (processExchanges h fields cands dups filt l).1.get? i = some e := by
  intro l
  induction l with
  | nil =>
    intro i e hi _
    simp at hi
  | cons e0 rest ih =>
    intro i e hi hcond
    rw [processExchanges_cons]
    by_cases hf : filt e0
    · rw [if_pos hf]
      cases hd : alistGet dups (h e0 fields) with
      | some others => exact hi
      | none =>
        cases i with
        | zero =>
          simp at hi
          subst hi
          rcases hcond with hc | hc
          · rw [hf] at hc
            cases hc
          · exact absurd hd hc
        | succ i =>
          simp only [List.get?] at hi ⊢
          exact ih i e hi hcond
    · rw [if_neg hf]
      cases i with
      | zero =>
        simp at hi
        subst hi
        rfl
      | succ i =>
        simp only [List.get?] at hi ⊢
        exact ih i e hi hcond

theorem processExchanges_ok_get (h : Obj → List String → String)
    (fields : List String) (cands : List (String × (Val × Val)))
    (dups : List (String × List Obj)) (filt : Obj → Bool) :
    ∀ (l : List Obj),
      (processExchanges h fields cands dups filt l).2 = none →
      ∀ i e, l.get? i = some e →
        (processExchanges h fields cands dups filt l).1.get? i =
          some (procOne h fields cands filt e) ∧
        (filt e = true → alistGet dups (h e fields) = none) := by
  intro l
  induction l with
  | nil =>
    intro _ i e hi
    simp at hi
  | cons e0 rest ih =>
    intro hok i e hi
    rw [processExchanges_cons] at hok ⊢
    by_cases hf : filt e0
    · rw [if_pos hf] at hok ⊢
      cases hd : alistGet dups (h e0 fields) with
      | some others =>
        rw [hd] at hok
        simp at hok
      | none =>
        rw [hd] at hok
        replace hok : (processExchanges h fields cands dups filt rest).2 =
          none := hok
        cases i with
        | zero =>
          simp at hi
          subst hi
          refine ⟨?_, fun _ => hd⟩
          simp [procOne, hf]
        | succ i =>
          have hrec := ih hok i e (by simpa using hi)
          exact ⟨by simpa using hrec.1, hrec.2⟩
    · rw [if_neg hf] at hok ⊢
      replace hok : (processExchanges h fields cands dups filt rest).2 =
        none := hok
      cases i with
      | zero =>
        simp at hi
        subst hi
        refine ⟨by simp [procOne, hf], fun hft => absurd hft hf⟩
      | succ i =>
        have hrec := ih hok i e (by simpa using hi)
        exact ⟨by simpa using hrec.1, hrec.2⟩

theorem processExchanges_err_shape (h : Obj → List String → String)
    (fields : List String) (cands : List (String × (Val × Val)))
    (dups : List (String × List Obj)) (filt : Obj → Bool) :
    ∀ (l : List Obj) (le : LinkError),
      (processExchanges h fields cands dups filt l).2 = some le →
      ∃ obj others, le = .nonunique obj others ∧ filt obj = true ∧
        alistGet dups (h obj fields) = some others ∧ obj ∈ l := by
  intro l
  induction l with
  | nil =>
    intro le h0
    simp [processExchanges] at h0
  | cons e0 rest ih =>
    intro le h0
    rw [processExchanges_cons] at h0
    by_cases hf : filt e0
    · rw [if_pos hf] at h0
      cases hd : alistGet dups (h e0 fields) with
      | some others =>
        rw [hd] at h0
        replace h0 : some (LinkError.nonunique e0 others) = some le := h0
        injection h0 with h1
        exact ⟨e0, others, h1.symm, hf, hd, by simp⟩
      | none =>
        rw [hd] at h0
        replace h0 : (processExchanges h fields cands dups filt rest).2 =
          some le := h0
        obtain ⟨obj, others, g1, g2, g3, g4⟩ := ih le h0
        exact ⟨obj, others, g1, g2, g3, List.mem_cons_of_mem _ g4⟩
    · rw [if_neg hf] at h0
      obtain ⟨obj, others, g1, g2, g3, g4⟩ := ih le h0
      exact ⟨obj, others, g1, g2, g3, List.mem_cons_of_mem _ g4⟩

theorem processExchanges_raises (h : Obj → List String → String)
    (fields : List String) (cands : List (String × (Val × Val)))
    (dups : List (String × List Obj)) (filt : Obj → Bool) (l : List Obj)
    (hex : ∃ e ∈ l, filt e = true ∧ alistGet dups (h e fields) ≠ none) :
    (processExchanges h fields cands dups filt l).2 ≠ none := by
  obtain ⟨e, hmem, hf, hd⟩ := hex
  intro hok
  obtain ⟨i, hi⟩ := List.get?_of_mem hmem
  exact hd ((processExchanges_ok_get h fields cands dups filt l hok i e
    hi).2 hf)

theorem filter_func_input_false (kind : Option (List String)) (x : Obj)
    (hx : x.truthyGet "input" = true) : filter_func kind false x = false := by
  cases kind with
  | none => simp [filter_func, hx]
  | some ks => by_cases hks : ks.isEmpty <;> simp [filter_func, hks, hx]

theorem truthyGet_set_input (e : Obj) (v1 v2 : Val) :
    (e.set "input" (.pair v1 v2)).truthyGet "input" = true := by
  simp [Obj.truthyGet, Obj.get, Obj.set, alistGet_set_self, Val.truthy]

theorem processExchanges_idem (h : Obj → List String → String)
    (fields : List String) (cands : List (String × (Val × Val)))
    (dups : List (String × List Obj)) (kind : Option (List String)) :
    ∀ (l : List Obj),
      (processExchanges h fields cands dups (filter_func kind false) l).2 =
        none →
      processExchanges h fields cands dups (filter_func kind false)
        ((processExchanges h fields cands dups (filter_func kind false)
          l).1) =
      ((processExchanges h fields cands dups (filter_func kind false) l).1,
        none) := by
  intro l
  induction l with
  | nil => intro _; rfl
  | cons e0 rest ih =>
    intro hok
    rw [processExchanges_cons] at hok
    by_cases hf : filter_func kind false e0
    · rw [if_pos hf] at hok
      cases hd : alistGet dups (h e0 fields) with
      | some others =>
        rw [hd] at hok
        simp at hok
      | none =>
        rw [hd] at hok
        replace hok :
            (processExchanges h fields cands dups (filter_func kind false)
              rest).2 = none := hok
        have ihr := ih hok
        rw [processExchanges_cons, if_pos hf, hd]
        cases hc : alistGet cands (h e0 fields) with
        | some p =>
          simp only []
          have hfe1 : filter_func kind false
              (e0.set "input" (.pair p.1 p.2)) = false :=
            filter_func_input_false _ _ (truthyGet_set_input e0 p.1 p.2)
          rw [processExchanges_cons, if_neg (by simp [hfe1]), ihr]
        | none =>
          simp only []
          rw [processExchanges_cons, if_pos hf, hd, hc, ihr]
    · rw [if_neg hf] at hok
      replace hok :
          (processExchanges h fields cands dups (filter_func kind false)
            rest).2 = none := hok
      rw [processExchanges_cons, if_neg hf]
      rw [processExchanges_cons, if_neg hf, ih hok]

theorem processDatasets_cons (h : Obj → List String → String)
    (fields : List String) (cands : List (String × (Val × Val)))
    (dups : List (String × List Obj)) (filt : Obj → Bool) (d : DS)
    (rest : List DS) :
    processDatasets h fields cands dups filt (d :: rest) =
    (match (processExchanges h fields cands dups filt d.exchanges).2 with
     | some err =>
        (⟨d.attrs, (processExchanges h fields cands dups filt
          d.exchanges).1⟩ :: rest, some err)
     | none =>
        (⟨d.attrs, (processExchanges h fields cands dups filt
          d.exchanges).1⟩ ::
          (processDatasets h fields cands dups filt rest).1,
         (processDatasets h fields cands dups filt rest).2)) := rfl

theorem processDatasets_untouched (h : Obj → List String → String)
    (fields : List String) (cands : List (String × (Val × Val)))
    (dups : List (String × List Obj)) (filt : Obj → Bool) :
    ∀ (l : List DS) (j : ℕ) (d : DS), l.get? j = some d →
      ∃ d1, (processDatasets h fields cands dups filt l).1.get? j =
          some d1 ∧ d1.attrs = d.attrs ∧
        ∀ i e, d.exchanges.get? i = some e →
          (filt e = false ∨ alistGet dups (h e fields) ≠ none) →
          d1.exchanges.get? i = some e := by
  intro l
  induction l with
  | nil =>
    intro j d hj
    simp at hj
  | cons d0 rest ih =>
    intro j d hj
    rw [processDatasets_cons]
    cases herr : (processExchanges h fields cands dups filt
        d0.exchanges).2 with
    | some err =>
      cases j with
      | zero =>
        simp at hj
        subst hj
        refine ⟨⟨d0.attrs, (processExchanges h fields cands dups filt
          d0.exchanges).1⟩, rfl, rfl, ?_⟩
        intro i e hi hcond
        exact processExchanges_untouched h fields cands dups filt
          d0.exchanges i e hi hcond
      | succ j =>
        simp only [List.get?] at hj ⊢
        exact ⟨d, hj, rfl, fun i e hi _ => hi⟩
    | none =>
      cases j with
      | zero =>
        simp at hj
        subst hj
        refine ⟨⟨d0.attrs, (processExchanges h fields cands dups filt
          d0.exchanges).1⟩, rfl, rfl, ?_⟩
        intro i e hi hcond
        exact processExchanges_untouched h fields cands dups filt
          d0.exchanges i e hi hcond
      | succ j =>
        simp only [List.get?] at hj ⊢
        exact ih j d hj

theorem processDatasets_ok_get (h : Obj → List String → String)
    (fields : List String) (cands : List (String × (Val × Val)))
    (dups : List (String × List Obj)) (filt : Obj → Bool) :
    ∀ (l : List DS),
      (processDatasets h fields cands dups filt l).2 = none →
      ∀ j d, l.get? j = some d →
        (processExchanges h fields cands dups filt d.exchanges).2 = none ∧
        (processDatasets h fields cands dups filt l).1.get? j =
          some ⟨d.attrs,
            (processExchanges h fields cands dups filt d.exchanges).1⟩ := by
  intro l
  induction l with
  | nil =>
    intro _ j d hj
    simp at hj
  | cons d0 rest ih =>
    intro hok j d hj
    rw [processDatasets_cons] at hok ⊢
    cases herr : (processExchanges h fields cands dups filt
        d0.exchanges).2 with
    | some err =>
      rw [herr] at hok
      simp at hok
    | none =>
      rw [herr] at hok
      replace hok : (processDatasets h fields cands dups filt rest).2 =
        none := hok
      cases j with
      | zero =>
        simp at hj
        subst hj
        exact ⟨herr, rfl⟩
      | succ j =>
        simp only [List.get?] at hj ⊢
        exact ih hok j d hj

theorem processDatasets_err_shape (h : Obj → List String → String)
    (fields : List String) (cands : List (String × (Val × Val)))
    (dups : List (String × List Obj)) (filt : Obj → Bool) :
    ∀ (l : List DS) (le : LinkError),
      (processDatasets h fields cands dups filt l).2 = some le →
      ∃ obj others, le = .nonunique obj others ∧ filt obj = true ∧
        alistGet dups (h obj fields) = some others ∧
        ∃ d ∈ l, obj ∈ d.exchanges := by
  intro l
  induction l with
  | nil =>
    intro le h0
    simp [processDatasets] at h0
  | cons d0 rest ih =>
    intro le h0
    rw [processDatasets_cons] at h0
    cases herr : (processExchanges h fields cands dups filt
        d0.exchanges).2 with
    | some err =>
      rw [herr] at h0
      replace h0 : some err = some le := h0
      injection h0 with h1
      subst h1
      obtain ⟨obj, others, g1, g2, g3, g4⟩ :=
        processExchanges_err_shape h fields cands dups filt
          d0.exchanges err herr
      exact ⟨obj, others, g1, g2, g3, d0, by simp, g4⟩
    | none =>
      rw [herr] at h0
      replace h0 : (processDatasets h fields cands dups filt rest).2 =
        some le := h0
      obtain ⟨obj, others, g1, g2, g3, d1, g4, g5⟩ := ih le h0
      exact ⟨obj, others, g1, g2, g3, d1, List.mem_cons_of_mem _ g4, g5⟩

theorem processDatasets_raises (h : Obj → List String → String)
    (fields : List String) (cands : List (String × (Val × Val)))
    (dups : List (String × List Obj)) (filt : Obj → Bool) (l : List DS)
    (hex : ∃ d ∈ l, ∃ e ∈ d.exchanges, filt e = true ∧
      alistGet dups (h e fields) ≠ none) :
    (processDatasets h fields cands dups filt l).2 ≠ none := by
  obtain ⟨d, hdmem, e, hemem, hf, hd⟩ := hex
  intro hok
  obtain ⟨j, hj⟩ := List.get?_of_mem hdmem
  have hpe := (processDatasets_ok_get h fields cands dups filt l hok j d
    hj).1
  obtain ⟨i, hi⟩ := List.get?_of_mem hemem
  exact hd ((processExchanges_ok_get h fields cands dups filt d.exchanges
    hpe i e hi).2 hf)

theorem processDatasets_idem (h : Obj → List String → String)
    (fields : List String) (cands : List (String × (Val × Val)))
    (dups : List (String × List Obj)) (kind : Option (List String)) :
    ∀ (l : List DS),
      (processDatasets h fields cands dups (filter_func kind false) l).2 =
        none →
      processDatasets h fields cands dups (filter_func kind false)
        ((processDatasets h fields cands dups (filter_func kind false)
          l).1) =
      ((processDatasets h fields cands dups (filter_func kind false) l).1,
        none) := by
  intro l
  induction l with
  | nil => intro _; rfl
  | cons d0 rest ih =>
    intro hok
    rw [processDatasets_cons] at hok
    cases herr : (processExchanges h fields cands dups
        (filter_func kind false) d0.exchanges).2 with
    | some err =>
      rw [herr] at hok
      simp at hok
    | none =>
      rw [herr] at hok
      replace hok : (processDatasets h fields cands dups
        (filter_func kind false) rest).2 = none := hok
      rw [processDatasets_cons, herr]
      simp only []
      rw [processDatasets_cons]
      have hpe := processExchanges_idem h fields cands dups kind
        d0.exchanges herr
      rw [hpe]
      simp only []
      rw [ih hok]

/-- C7: when the candidate-index construction fails because a candidate
record lacks `database` or `code`, the missing-identity error is raised
before any exchange is mutated: the call returns the unlinked collection
exactly as it was, with every exchange's `input` untouched. -/
theorem link_missing_identity (h : Obj → List String → String)
    (unlinked : List DS) (other : List Obj) (fields : List String)
    (kind : Option (List String)) (internal relink : Bool)
    (hb : buildIndex h fields
      (if internal then unlinked.map DS.attrs else other) [] [] =
      .error ()) :
    link_iterable_by_fields h unlinked other fields kind internal relink =
      (unlinked, some .missingIdentity) := by
  simp only [link_iterable_by_fields]
  rw [hb]

/-- Candidate record lacking `database` and `code`. -/
def c7cand : Obj := [("name", .str "steel")]

/-- Dataset with one unlinked technosphere exchange. -/
def c7ds : DS :=
  ⟨[("name", .str "widget")],
   [[("type", .str "technosphere"), ("name", .str "steel")]]⟩

/-- Witness for `link_missing_identity`: a pool whose only candidate has
no `database`/`code` makes the call fail and return its input
untouched. -/
theorem link_missing_identity_witness :
    buildIndex activity_hash ["name"]
      (if (false : Bool) then [c7ds].map DS.attrs else [c7cand]) [] [] =
      .error () ∧
    link_iterable_by_fields activity_hash [c7ds] [c7cand] ["name"] none
      false false = ([c7ds], some .missingIdentity) := by
  have hb : buildIndex activity_hash ["name"]
      (if (false : Bool) then [c7ds].map DS.attrs else [c7cand]) [] [] =
      .error () := by rfl
  exact ⟨hb, link_missing_identity activity_hash [c7ds] [c7cand] ["name"]
    none false false hb⟩

theorem dups_none_of_optList_nil (d : List (String × List Obj))
    (k : String) (hne : ∀ p ∈ d, p.2 ≠ [])
    (h0 : optList (alistGet d k) = []) : alistGet d k = none := by
  cases hd : alistGet d k with
  | none => rfl
  | some l =>
    rw [hd] at h0
    simp [optList] at h0
    exact absurd h0 (hne (k, l) (alistGet_mem d k l hd))

/-- Characterization of a successfully built candidate index, from empty
accumulators, at a fingerprint `k`: a unique pool match is in the index
(with its `(database, code)`) and not in the duplicates registry; no match
means neither; two or more matches mean the registry holds exactly the
matches after the first. -/
theorem buildIndex_empty_spec (h : Obj → List String → String)
    (fields : List String) (other : List Obj)
    (c : List (String × (Val × Val))) (d : List (String × List Obj))
    (hb : buildIndex h fields other [] [] = .ok (c, d)) (k : String) :
    (∀ cand, hashMatches h fields k other = [cand] →
      ∃ db cd, Obj.get cand "database" = some db ∧
        Obj.get cand "code" = some cd ∧
        alistGet c k = some (db, cd) ∧ alistGet d k = none) ∧
    (hashMatches h fields k other = [] →
      alistGet c k = none ∧ alistGet d k = none) ∧
    (∀ cand tl, hashMatches h fields k other = cand :: tl →
      optList (alistGet d k) = tl) := by
  have hspec := buildIndex_spec h fields other [] [] c d hb k
  have hentries := buildIndex_entries h fields other [] [] c d hb
    (by simp)
  have hnone : alistGet ([] : List (String × (Val × Val))) k = none := rfl
  refine ⟨?_, ?_, ?_⟩
  · intro cand hm
    obtain ⟨⟨db, cd, g1, g2, g3⟩, g4⟩ := (hspec.2 hnone).2 cand [] hm
    refine ⟨db, cd, g1, g2, g3, ?_⟩
    exact dups_none_of_optList_nil d k hentries (by simpa using g4)
  · intro hm
    obtain ⟨g1, g2⟩ := (hspec.2 hnone).1 hm
    exact ⟨g1, g2⟩
  · intro cand tl hm
    obtain ⟨_, g2⟩ := (hspec.2 hnone).2 cand tl hm
    simpa using g2

/-- C3: in a linking call (external candidate pool) that completes without
error, an exchange passing the kind/relink filter whose fingerprint over
the chosen fields matches exactly one candidate gets `input` set to that
candidate's `(database, code)` pair; an exchange passing the filter whose
fingerprint matches no candidate is returned exactly as it was, without
`input` being set. -/
theorem link_unique_match (h : Obj → List String → String)
    (unlinked u1 : List DS) (other : List Obj) (fields : List String)
    (kind : Option (List String)) (relink : Bool)
    (hok : link_iterable_by_fields h unlinked other fields kind false
      relink = (u1, none))
    (j : ℕ) (d : DS) (hj : unlinked.get? j = some d)
    (i : ℕ) (e : Obj) (hi : d.exchanges.get? i = some e)
    (hf : filter_func kind relink e = true) :
    (∀ cand, hashMatches h fields (h e fields) other = [cand] →
      ∃ db cd, Obj.get cand "database" = some db ∧
        Obj.get cand "code" = some cd ∧
        ∃ d1, u1.get? j = some d1 ∧ d1.attrs = d.attrs ∧
          d1.exchanges.get? i = some (e.set "input" (.pair db cd))) ∧
    (hashMatches h fields (h e fields) other = [] →
      ∃ d1, u1.get? j = some d1 ∧ d1.attrs = d.attrs ∧
        d1.exchanges.get? i = some e) := by
  simp only [link_iterable_by_fields, if_neg (by simp : ¬((false : Bool) = true))] at hok
  cases hbi : buildIndex h fields other [] [] with
  | error u =>
    rw [hbi] at hok
    replace hok : (unlinked, some LinkError.missingIdentity) = (u1, none) :=
      hok
    injection hok with h1 h2
    cases h2
  | ok cd =>
    obtain ⟨c, dreg⟩ := cd
    rw [hbi] at hok
    replace hok : processDatasets h fields c dreg
      (filter_func kind relink) unlinked = (u1, none) := hok
    have hok2 : (processDatasets h fields c dreg
        (filter_func kind relink) unlinked).2 = none := by rw [hok]
    have hok1 : (processDatasets h fields c dreg
        (filter_func kind relink) unlinked).1 = u1 := by rw [hok]
    obtain ⟨hpe, hds⟩ := processDatasets_ok_get h fields c dreg
      (filter_func kind relink) unlinked hok2 j d hj
    rw [hok1] at hds
    have hex := processExchanges_ok_get h fields c dreg
      (filter_func kind relink) d.exchanges hpe i e hi
    constructor
    · intro cand hm
      obtain ⟨db, cdv, g1, g2, g3, _⟩ :=
        (buildIndex_empty_spec h fields other c dreg hbi
          (h e fields)).1 cand hm
      refine ⟨db, cdv, g1, g2,
        ⟨d.attrs, (processExchanges h fields c dreg
          (filter_func kind relink) d.exchanges).1⟩, hds, rfl, ?_⟩
      have := hex.1
      rw [procOne, if_pos hf, g3] at this
      exact this
    · intro hm
      obtain ⟨g1, _⟩ :=
        (buildIndex_empty_spec h fields other c dreg hbi
          (h e fields)).2.1 hm
      refine ⟨⟨d.attrs, (processExchanges h fields c dreg
        (filter_func kind relink) d.exchanges).1⟩, hds, rfl, ?_⟩
      have := hex.1
      rw [procOne, if_pos hf, g1] at this
      exact this

/-- Candidate from the spec's linking example. -/
def c3cand : Obj :=
  [("database", .str "B"), ("code", .str "X"), ("name", .str "steel")]

/-- Exchange from the spec's linking example. -/
def c3e : Obj := [("type", .str "technosphere"), ("name", .str "steel")]

/-- Dataset holding the spec's example exchange. -/
def c3ds : DS := ⟨[], [c3e]⟩

/-- Witness for `link_unique_match`: the spec's example — one candidate
`database B / code X / name steel` and one technosphere exchange named
`steel` — links the exchange to `(B, X)`. -/
theorem link_unique_match_witness :
    link_iterable_by_fields activity_hash [c3ds] [c3cand] ["name"]
      (some ["technosphere", "substitution", "production"]) false false =
      ([⟨[], [[("type", .str "technosphere"), ("name", .str "steel"),
        ("input", .pair (.str "B") (.str "X"))]]⟩], none) ∧
    hashMatches activity_hash ["name"]
      (activity_hash c3e ["name"]) [c3cand] = [c3cand] ∧
    (∃ db cd, Obj.get c3cand "database" = some db ∧
      Obj.get c3cand "code" = some cd ∧
      ∃ d1, ([⟨[], [[("type", .str "technosphere"), ("name", .str "steel"),
          ("input", .pair (.str "B") (.str "X"))]]⟩] : List DS).get? 0 =
          some d1 ∧ d1.attrs = c3ds.attrs ∧
        d1.exchanges.get? 0 = some (c3e.set "input"
          (.pair db cd))) := by
  have hok : link_iterable_by_fields activity_hash [c3ds] [c3cand] ["name"]
      (some ["technosphere", "substitution", "production"]) false false =
      ([⟨[], [[("type", .str "technosphere"), ("name", .str "steel"),
        ("input", .pair (.str "B") (.str "X"))]]⟩], none) := by rfl
  refine ⟨hok, by rfl, ?_⟩
  exact (link_unique_match activity_hash [c3ds] _ [c3cand] ["name"] _ false
    hok 0 c3ds rfl 0 c3e rfl (by decide)).1 c3cand (by rfl)

/-- C2 (amended): with a successfully built index and some filtered
exchange whose fingerprint is shared by at least two candidates, the call
raises the ambiguous-link error, and every exchange whose fingerprint is
so duplicated is returned exactly as it was (no `input` set on it); only
exchanges with unique fingerprints processed before the raise keep the
`input` the call gave them. -/
theorem link_ambiguous (h : Obj → List String → String)
    (unlinked : List DS) (other : List Obj) (fields : List String)
    (kind : Option (List String)) (relink : Bool)
    (c : List (String × (Val × Val))) (dreg : List (String × List Obj))
    (hb : buildIndex h fields other [] [] = .ok (c, dreg))
    (hex : ∃ j d, unlinked.get? j = some d ∧ ∃ i e,
      d.exchanges.get? i = some e ∧ filter_func kind relink e = true ∧
      2 ≤ (hashMatches h fields (h e fields) other).length) :
    (∃ obj others,
      (link_iterable_by_fields h unlinked other fields kind false
        relink).2 = some (.nonunique obj others)) ∧
    (∀ j d, unlinked.get? j = some d →
      ∃ d1, (link_iterable_by_fields h unlinked other fields kind false
          relink).1.get? j = some d1 ∧ d1.attrs = d.attrs ∧
        ∀ i e, d.exchanges.get? i = some e →
          2 ≤ (hashMatches h fields (h e fields) other).length →
          d1.exchanges.get? i = some e) := by
  have hbridge : ∀ e : Obj,
      2 ≤ (hashMatches h fields (h e fields) other).length →
      alistGet dreg (h e fields) ≠ none := by
    intro e hlen
    cases hm : hashMatches h fields (h e fields) other with
    | nil =>
      rw [hm] at hlen
      simp at hlen
    | cons cand tl =>
      have g2 := (buildIndex_empty_spec h fields other c dreg hb
        (h e fields)).2.2 cand tl hm
      intro hnone
      rw [hnone] at g2
      rw [hm] at hlen
      simp [optList] at g2
      subst g2
      simp at hlen
  have hred : link_iterable_by_fields h unlinked other fields kind false
      relink = processDatasets h fields c dreg (filter_func kind relink)
      unlinked := by
    simp only [link_iterable_by_fields,
      if_neg (by simp : ¬((false : Bool) = true))]
    rw [hb]
  rw [hred]
  constructor
  · obtain ⟨j, d, hj, i, e, hi, hf, hlen⟩ := hex
    have hraise := processDatasets_raises h fields c dreg
      (filter_func kind relink) unlinked
      ⟨d, List.get?_mem hj, e, List.get?_mem hi, hf,
        hbridge e hlen⟩
    cases herr : (processDatasets h fields c dreg
        (filter_func kind relink) unlinked).2 with
    | none => exact absurd herr hraise
    | some le =>
      obtain ⟨obj, others, g1, _, _, _⟩ := processDatasets_err_shape
        h fields c dreg (filter_func kind relink) unlinked le herr
      subst g1
      exact ⟨obj, others, rfl⟩
  · intro j d hj
    obtain ⟨d1, g1, g2, g3⟩ := processDatasets_untouched h fields c dreg
      (filter_func kind relink) unlinked j d hj
    exact ⟨d1, g1, g2, fun i e hi hlen =>
      g3 i e hi (Or.inr (hbridge e hlen))⟩

/-- Candidate with unique fingerprint `a`. -/
def c2c1 : Obj :=
  [("name", .str "a"), ("database", .str "D"), ("code", .str "1")]

/-- First candidate with duplicated fingerprint `b`. -/
def c2c2 : Obj :=
  [("name", .str "b"), ("database", .str "D"), ("code", .str "2")]

/-- Second candidate with duplicated fingerprint `b`. -/
def c2c3 : Obj :=
  [("name", .str "b"), ("database", .str "D"), ("code", .str "3")]

/-- Exchange matching the unique fingerprint `a`. -/
def c2e1 : Obj := [("name", .str "a")]

/-- Exchange matching the duplicated fingerprint `b`. -/
def c2e2 : Obj := [("name", .str "b")]

/-- Counterexample to C2 as stated: with two distinct candidates sharing
fingerprint `b` and a batch holding an `a`-exchange before a `b`-exchange,
the call raises the ambiguous-link error on the `b`-exchange, yet the
`a`-exchange — which had no `input` — has had `input` set by this call, so
it is not true that no exchange in the whole batch was mutated. -/
theorem link_ambiguous_counterexample :
    c2c2 ≠ c2c3 ∧
    activity_hash c2c2 ["name"] = activity_hash c2c3 ["name"] ∧
    Obj.get c2e1 "input" = none ∧
    link_iterable_by_fields activity_hash [⟨[], [c2e1, c2e2]⟩]
      [c2c1, c2c2, c2c3] ["name"] none false false =
      ([⟨[], [[("name", .str "a"), ("input", .pair (.str "D") (.str "1"))],
        c2e2]⟩], some (.nonunique c2e2 [c2c3])) := by
  exact ⟨by decide, by rfl, by rfl, by rfl⟩

/-- Witness for `link_ambiguous` at the concrete collision above. -/
theorem link_ambiguous_witness :
    buildIndex activity_hash ["name"] [c2c1, c2c2, c2c3] [] [] =
      .ok ([("a", (.str "D", .str "1")), ("b", (.str "D", .str "2"))],
        [("b", [c2c3])]) ∧
    (∃ j d, ([⟨[], [c2e1, c2e2]⟩] : List DS).get? j = some d ∧ ∃ i e,
      d.exchanges.get? i = some e ∧ filter_func none false e = true ∧
      2 ≤ (hashMatches activity_hash ["name"]
        (activity_hash e ["name"]) [c2c1, c2c2, c2c3]).length) ∧
    (∃ obj others,
      (link_iterable_by_fields activity_hash [⟨[], [c2e1, c2e2]⟩]
        [c2c1, c2c2, c2c3] ["name"] none false false).2 =
        some (.nonunique obj others)) ∧
    (∀ j d, ([⟨[], [c2e1, c2e2]⟩] : List DS).get? j = some d →
      ∃ d1, (link_iterable_by_fields activity_hash [⟨[], [c2e1, c2e2]⟩]
          [c2c1, c2c2, c2c3] ["name"] none false false).1.get? j =
          some d1 ∧ d1.attrs = d.attrs ∧
        ∀ i e, d.exchanges.get? i = some e →
          2 ≤ (hashMatches activity_hash ["name"]
            (activity_hash e ["name"]) [c2c1, c2c2, c2c3]).length →
          d1.exchanges.get? i = some e) := by
  have hb : buildIndex activity_hash ["name"] [c2c1, c2c2, c2c3] [] [] =
      .ok ([("a", (.str "D", .str "1")), ("b", (.str "D", .str "2"))],
        [("b", [c2c3])]) := by rfl
  have hex : ∃ j d, ([⟨[], [c2e1, c2e2]⟩] : List DS).get? j = some d ∧
      ∃ i e, d.exchanges.get? i = some e ∧
        filter_func none false e = true ∧
        2 ≤ (hashMatches activity_hash ["name"]
          (activity_hash e ["name"]) [c2c1, c2c2, c2c3]).length :=
    ⟨0, ⟨[], [c2e1, c2e2]⟩, rfl, 1, c2e2, rfl, by rfl, by rfl⟩
  have hmain := link_ambiguous activity_hash [⟨[], [c2e1, c2e2]⟩]
    [c2c1, c2c2, c2c3] ["name"] none false
    [("a", (.str "D", .str "1")), ("b", (.str "D", .str "2"))]
    [("b", [c2c3])] hb hex
  exact ⟨hb, hex, hmain.1, hmain.2⟩

/-- C4 (amended): every ambiguous-link failure formats its message from
the offending exchange's attribute snapshot (over the chosen fields plus
`filename`, with a missing-field marker) and from the duplicates-registry
entry, which holds every colliding candidate except the first-seen one —
that one stays in the candidate index and is not part of the message. -/
theorem link_nonunique_error_content (h : Obj → List String → String)
    (unlinked : List DS) (other : List Obj) (fields : List String)
    (kind : Option (List String)) (relink : Bool)
    (c : List (String × (Val × Val))) (dreg : List (String × List Obj))
    (hb : buildIndex h fields other [] [] = .ok (c, dreg))
    (obj : Obj) (others : List Obj)
    (herr : (link_iterable_by_fields h unlinked other fields kind false
      relink).2 = some (.nonunique obj others)) :
    (format_nonunique_key_error obj fields others).ds =
      errProjection
        ((if fields.isEmpty then DEFAULT_FIELDS else fields) ++
          ["filename"]) obj ∧
    others = (hashMatches h fields (h obj fields) other).tail ∧
    (format_nonunique_key_error obj fields others).targets =
      ((hashMatches h fields (h obj fields) other).tail).map
        (errProjection
          ((if fields.isEmpty then DEFAULT_FIELDS else fields) ++
            ["filename"])) := by
  have hred : link_iterable_by_fields h unlinked other fields kind false
      relink = processDatasets h fields c dreg (filter_func kind relink)
      unlinked := by
    simp only [link_iterable_by_fields,
      if_neg (by simp : ¬((false : Bool) = true))]
    rw [hb]
  rw [hred] at herr
  obtain ⟨obj1, others1, g1, _, greg, _⟩ := processDatasets_err_shape
    h fields c dreg (filter_func kind relink) unlinked _ herr
  injection g1 with g1a g1b
  subst g1a
  subst g1b
  have htail : others = (hashMatches h fields (h obj fields) other).tail := by
    cases hm : hashMatches h fields (h obj fields) other with
    | nil =>
      obtain ⟨_, g2⟩ := (buildIndex_empty_spec h fields other c dreg hb
        (h obj fields)).2.1 hm
      rw [greg] at g2
      cases g2
    | cons cand tl =>
      have g2 := (buildIndex_empty_spec h fields other c dreg hb
        (h obj fields)).2.2 cand tl hm
      rw [greg] at g2
      simpa [optList] using g2
  refine ⟨rfl, htail, ?_⟩
  rw [← htail]
  rfl

/-- First-seen candidate of the duplicated fingerprint, with its own
`filename`. -/
def c4c1 : Obj := [("name", .str "b"), ("database", .str "D"),
  ("code", .str "2"), ("filename", .str "f1")]

/-- Later candidate of the duplicated fingerprint, with its own
`filename`. -/
def c4c2 : Obj := [("name", .str "b"), ("database", .str "D"),
  ("code", .str "3"), ("filename", .str "f2")]

/-- Exchange matching the duplicated fingerprint. -/
def c4e : Obj := [("name", .str "b")]

/-- Counterexample to C4 as stated: both candidates share the duplicated
fingerprint, but the error carries (and the message shows) only the later
candidate — the first-seen candidate's snapshot, distinguishable by its
`filename`, is absent, so the message does not contain the full set of
colliding candidates. -/
theorem link_nonunique_error_counterexample :
    c4c1 ≠ c4c2 ∧
    activity_hash c4c1 ["name"] = activity_hash c4c2 ["name"] ∧
    activity_hash c4e ["name"] = activity_hash c4c1 ["name"] ∧
    (link_iterable_by_fields activity_hash [⟨[], [c4e]⟩] [c4c1, c4c2]
      ["name"] none false false).2 = some (.nonunique c4e [c4c2]) ∧
    (format_nonunique_key_error c4e ["name"] [c4c2]).targets =
      [errProjection ["name", "filename"] c4c2] ∧
    errProjection ["name", "filename"] c4c1 ∉
      (format_nonunique_key_error c4e ["name"] [c4c2]).targets := by
  refine ⟨by decide, by rfl, by rfl, by rfl, by rfl, by decide⟩

/-- Witness for `link_nonunique_error_content` at the concrete collision
above. -/
theorem link_nonunique_error_content_witness :
    buildIndex activity_hash ["name"] [c4c1, c4c2] [] [] =
      .ok ([("b", (.str "D", .str "2"))], [("b", [c4c2])]) ∧
    (link_iterable_by_fields activity_hash [⟨[], [c4e]⟩] [c4c1, c4c2]
      ["name"] none false false).2 = some (.nonunique c4e [c4c2]) ∧
    (format_nonunique_key_error c4e ["name"] [c4c2]).ds =
      errProjection ["name", "filename"] c4e ∧
    ([c4c2] : List Obj) = (hashMatches activity_hash ["name"]
      (activity_hash c4e ["name"]) [c4c1, c4c2]).tail ∧
    (format_nonunique_key_error c4e ["name"] [c4c2]).targets =
      ((hashMatches activity_hash ["name"]
        (activity_hash c4e ["name"]) [c4c1, c4c2]).tail).map
        (errProjection ["name", "filename"]) := by
  have hb : buildIndex activity_hash ["name"] [c4c1, c4c2] [] [] =
      .ok ([("b", (.str "D", .str "2"))], [("b", [c4c2])]) := by rfl
  have herr : (link_iterable_by_fields activity_hash [⟨[], [c4e]⟩]
      [c4c1, c4c2] ["name"] none false false).2 =
      some (.nonunique c4e [c4c2]) := by rfl
  have hmain := link_nonunique_error_content activity_hash [⟨[], [c4e]⟩]
    [c4c1, c4c2] ["name"] none false [("b", (.str "D", .str "2"))]
    [("b", [c4c2])] hb c4e [c4c2] herr
  exact ⟨hb, herr, hmain.1, hmain.2.1, hmain.2.2⟩

/-- C8: with relinking disabled (external candidate pool), every exchange
that already carries a truthy `input` is returned exactly as it was, and a
call that completed without error is idempotent: running the same call
again on its output changes nothing and raises nothing. -/
theorem link_relink_guard (h : Obj → List String → String)
    (unlinked : List DS) (other : List Obj) (fields : List String)
    (kind : Option (List String)) :
    (∀ j d, unlinked.get? j = some d →
      ∃ d1, (link_iterable_by_fields h unlinked other fields kind false
          false).1.get? j = some d1 ∧ d1.attrs = d.attrs ∧
        ∀ i e, d.exchanges.get? i = some e →
          e.truthyGet "input" = true → d1.exchanges.get? i = some e) ∧
    (∀ u1, link_iterable_by_fields h unlinked other fields kind false
        false = (u1, none) →
      link_iterable_by_fields h u1 other fields kind false false =
        (u1, none)) := by
  simp only [link_iterable_by_fields,
    if_neg (by simp : ¬((false : Bool) = true))]
  cases hbi : buildIndex h fields other [] [] with
  | error u =>
    constructor
    · intro j d hj
      exact ⟨d, hj, rfl, fun i e hi _ => hi⟩
    · intro u1 hok
      injection hok with h1 h2
      cases h2
  | ok cd =>
    obtain ⟨c, dreg⟩ := cd
    constructor
    · intro j d hj
      obtain ⟨d1, g1, g2, g3⟩ := processDatasets_untouched h fields c dreg
        (filter_func kind false) unlinked j d hj
      exact ⟨d1, g1, g2, fun i e hi ht =>
        g3 i e hi (Or.inl (filter_func_input_false kind e ht))⟩
    · intro u1 hok
      replace hok : processDatasets h fields c dreg (filter_func kind false)
          unlinked = (u1, none) := hok
      have hok2 : (processDatasets h fields c dreg (filter_func kind false)
          unlinked).2 = none := by rw [hok]
      have hok1 : (processDatasets h fields c dreg (filter_func kind false)
          unlinked).1 = u1 := by rw [hok]
      show processDatasets h fields c dreg (filter_func kind false) u1 =
        (u1, none)
      rw [← hok1]
      exact processDatasets_idem h fields c dreg kind unlinked hok2

/-- Candidate for the relink-guard witness. -/
def c8cand : Obj :=
  [("name", .str "a"), ("database", .str "D"), ("code", .str "1")]

/-- Exchange already carrying a truthy `input`. -/
def c8eL : Obj := [("name", .str "x"), ("input", .pair (.str "Z") (.str "9"))]

/-- Exchange still to be linked. -/
def c8e : Obj := [("name", .str "a")]

/-- Output of the first linking run in the relink-guard witness. -/
def c8u1 : List DS :=
  [⟨[], [c8eL, [("name", .str "a"),
    ("input", .pair (.str "D") (.str "1"))]]⟩]

/-- Witness for `link_relink_guard`: the already-linked exchange is
untouched by a run that links its sibling, and running the same call again
on the output reproduces it with no error. -/
theorem link_relink_guard_witness :
    Obj.truthyGet c8eL "input" = true ∧
    link_iterable_by_fields activity_hash [⟨[], [c8eL, c8e]⟩] [c8cand]
      ["name"] none false false = (c8u1, none) ∧
    (∃ d1, (link_iterable_by_fields activity_hash [⟨[], [c8eL, c8e]⟩]
        [c8cand] ["name"] none false false).1.get? 0 = some d1 ∧
      d1.attrs = (⟨[], [c8eL, c8e]⟩ : DS).attrs ∧
      d1.exchanges.get? 0 = some c8eL) ∧
    link_iterable_by_fields activity_hash c8u1 [c8cand] ["name"] none
      false false = (c8u1, none) := by
  have hrun : link_iterable_by_fields activity_hash [⟨[], [c8eL, c8e]⟩]
      [c8cand] ["name"] none false false = (c8u1, none) := by rfl
  have hg := link_relink_guard activity_hash [⟨[], [c8eL, c8e]⟩] [c8cand]
    ["name"] none
  obtain ⟨d1, g1, g2, g3⟩ := hg.1 0 ⟨[], [c8eL, c8e]⟩ rfl
  exact ⟨by rfl, hrun, ⟨d1, g1, g2, g3 0 c8eL rfl (by rfl)⟩,
    hg.2 c8u1 hrun⟩
theorem orElseVal_falsy (o : Obj) (k : String) (b : Val)
    (hf : o.truthyGet k = false) : orElseVal (o.get k) b = b := by
  unfold Obj.truthyGet at hf
  cases hg : o.get k with
  | none => simp [orElseVal, hg]
  | some v =>
    rw [hg] at hf
    replace hf : v.truthy = false := hf
    simp [orElseVal, hg, hf]

/-- C9 (amended): the strategy applies `assignDS` to every dataset; a
dataset with no truthy `reference product` and exactly one production-type
exchange (with a truthy name and an amount) gets `reference product` set
to the exchange's own truthy `reference product` when present, otherwise
to its name, `production amount` set to the exchange's amount, and (when
the dataset had no truthy unit) `unit` set to the exchange's unit, or
`"Unknown"` when the exchange has none; a dataset with a truthy
`reference product`, or with a number of production-type exchanges other
than one, is returned unchanged. -/
theorem assign_only_product (db : List DS) :
    (∀ out, assign_only_product_as_production db = some out →
      ∀ j d, db.get? j = some d →
        ∃ r, assignDS d = some r ∧ out.get? j = some r) ∧
    (∀ d : DS, d.attrs.truthyGet "reference product" = false →
      ∀ product, d.exchanges.filter
          (fun x => x.get "type" == some (.str "production")) =
          [product] →
        ∀ nm, product.get "name" = some nm → nm.truthy = true →
        ∀ amt, product.get "amount" = some amt →
        ∃ attrs1, assignDS d = some ⟨attrs1, d.exchanges⟩ ∧
          attrs1.get "reference product" =
            some (orElseVal (product.get "reference product") nm) ∧
          attrs1.get "production amount" = some amt ∧
          (d.attrs.truthyGet "unit" = false →
            attrs1.get "unit" =
              some (orElseVal (product.get "unit") (.str "Unknown")))) ∧
    (∀ d : DS, d.attrs.truthyGet "reference product" = true →
      assignDS d = some d) ∧
    (∀ d : DS, d.attrs.truthyGet "reference product" = false →
      (d.exchanges.filter
        (fun x => x.get "type" == some (.str "production"))).length ≠ 1 →
      assignDS d = some d) := by
  refine ⟨?_, ?_, ?_, ?_⟩
  · induction db with
    | nil =>
      intro out hout j d hj
      simp at hj
    | cons d0 rest ih =>
      intro out hout j d hj
      simp only [assign_only_product_as_production] at hout
      cases ha0 : assignDS d0 with
      | none =>
        rw [ha0] at hout
        cases hout
      | some d1 =>
        rw [ha0] at hout
        cases hrest : assign_only_product_as_production rest with
        | none =>
          rw [hrest] at hout
          cases hout
        | some rest1 =>
          rw [hrest] at hout
          replace hout : some (d1 :: rest1) = some out := hout
          injection hout with hout
          subst hout
          cases j with
          | zero =>
            simp at hj
            subst hj
            exact ⟨d1, ha0, rfl⟩
          | succ j =>
            simp only [List.get?] at hj ⊢
            exact ih rest1 hrest j d hj
  · intro d hrp product hfil nm hnm hnmt amt hamt
    refine ⟨(((d.attrs.set "reference product"
        (orElseVal (product.get "reference product") nm)).set
        "production amount" amt).set "name"
        (orElseVal (((d.attrs.set "reference product"
          (orElseVal (product.get "reference product") nm)).set
          "production amount" amt).get "name") nm)).set "unit"
        (orElseVal ((((d.attrs.set "reference product"
          (orElseVal (product.get "reference product") nm)).set
          "production amount" amt).set "name"
          (orElseVal (((d.attrs.set "reference product"
            (orElseVal (product.get "reference product") nm)).set
            "production amount" amt).get "name") nm)).get "unit")
          (orElseVal (product.get "unit") (.str "Unknown"))),
      ?_, ?_, ?_, ?_⟩
    · simp only [assignDS, hrp, hfil, hnm, hnmt, hamt, Bool.not_true,
        Bool.false_eq_true, if_false]
    · rw [Obj.get_set_ne _ _ _ _ (by decide),
        Obj.get_set_ne _ _ _ _ (by decide),
        Obj.get_set_ne _ _ _ _ (by decide), Obj.get_set_self]
    · rw [Obj.get_set_ne _ _ _ _ (by decide),
        Obj.get_set_ne _ _ _ _ (by decide), Obj.get_set_self]
    · intro hunit
      rw [Obj.get_set_self]
      rw [Obj.get_set_ne _ _ _ _ (by decide),
        Obj.get_set_ne _ _ _ _ (by decide),
        Obj.get_set_ne _ _ _ _ (by decide),
        orElseVal_falsy d.attrs "unit" _ hunit]
  · intro d hrp
    simp [assignDS, hrp]
  · intro d hrp hlen
    simp only [assignDS, hrp, Bool.false_eq_true, if_false]
    cases hl : d.exchanges.filter
        (fun x => x.get "type" == some (.str "production")) with
    | nil => rfl
    | cons a t =>
      cases t with
      | nil =>
        rw [hl] at hlen
        simp at hlen
      | cons b t2 => rfl

/-- Production exchange carrying its own `reference product`. -/
def c9prodG : Obj := [("type", .str "production"), ("name", .str "Widget"),
  ("reference product", .str "Gadget"), ("amount", .num 5)]

/-- Dataset holding only that production exchange. -/
def c9dsG : DS := ⟨[], [c9prodG]⟩

/-- Counterexample to C9 as stated: the dataset has no `reference product`
and exactly one production exchange named `Widget`, but the strategy sets
`reference product` to the exchange's own (truthy) `reference product`
value `Gadget`, not to the exchange's name. -/
theorem assign_only_product_counterexample :
    Obj.get c9dsG.attrs "reference product" = none ∧
    c9dsG.exchanges.filter
      (fun x => x.get "type" == some (.str "production")) = [c9prodG] ∧
    Obj.get c9prodG "name" = some (.str "Widget") ∧
    assign_only_product_as_production [c9dsG] =
      some [⟨[("reference product", .str "Gadget"),
        ("production amount", .num 5), ("name", .str "Widget"),
        ("unit", .str "Unknown")], [c9prodG]⟩] ∧
    Val.str "Gadget" ≠ Val.str "Widget" := by
  exact ⟨rfl, by rfl, rfl, by rfl, by decide⟩

/-- Production exchange of the spec's example (name Widget, amount 5,
unit kg, no own reference product). -/
def c9prodW : Obj := [("type", .str "production"),
  ("name", .str "Widget"), ("amount", .num 5), ("unit", .str "kg")]

/-- Dataset of the spec's example, with no prior attributes. -/
def c9dsW : DS := ⟨[], [c9prodW]⟩

/-- Witness for `assign_only_product`: the spec's example dataset ends up
with reference product `Widget`, production amount 5 and unit `kg`. -/
theorem assign_only_product_witness :
    Obj.truthyGet c9dsW.attrs "reference product" = false ∧
    c9dsW.exchanges.filter
      (fun x => x.get "type" == some (.str "production")) = [c9prodW] ∧
    Obj.get c9prodW "name" = some (.str "Widget") ∧
    (Val.str "Widget").truthy = true ∧
    Obj.get c9prodW "amount" = some (.num 5) ∧
    (∃ attrs1, assignDS c9dsW = some ⟨attrs1, c9dsW.exchanges⟩ ∧
      attrs1.get "reference product" =
        some (orElseVal (Obj.get c9prodW "reference product")
          (.str "Widget")) ∧
      attrs1.get "production amount" = some (.num 5) ∧
      (Obj.truthyGet c9dsW.attrs "unit" = false →
        attrs1.get "unit" =
          some (orElseVal (Obj.get c9prodW "unit") (.str "Unknown")))) ∧
    assign_only_product_as_production [c9dsW] =
      some [⟨[("reference product", .str "Widget"),
        ("production amount", .num 5), ("name", .str "Widget"),
        ("unit", .str "kg")], [c9prodW]⟩] := by
  refine ⟨rfl, by rfl, rfl, by decide, rfl, ?_, by rfl⟩
  exact (assign_only_product [c9dsW]).2.1 c9dsW rfl c9prodW (by rfl)
    (.str "Widget") rfl (by decide) (.num 5) rfl
